import Mathlib

/-!
# Software UART (`src/myUart/main.cpp`): shallow embedding and verified properties

Conventions of the embedding.

* A `char` / `uint8_t` cell is the raw byte, a natural number below 256.  On the AVR
  target `char` is signed, so the value `-1` returned by `buffer_get` is the raw byte
  `0xFF`, and a `char` that is promoted to `int` is sign-extended (`sext16`).
* `uint16_t` arithmetic is taken modulo `2^16`, the 32-bit counters modulo `2^32`.
* The interrupt handlers and `uart_send` access the I/O registers only by setting,
  clearing or testing one named bit (`TIMSK1 |= (1 << OCIE1A)`,
  `TX_PORT &= ~(1 << TX_PIN)`, ...).  The bit positions live in `<avr/io.h>`; each named
  bit is therefore one Boolean field of the state, e.g. `TIMSK1_OCIE1A`.  The interrupt
  flag bits (`EIFR.INTF0`, `TIFR1.OCF1B`) are write-one-to-clear, so
  `EIFR |= (1 << INTF0)` makes the flag `false`.  `uart_set_baudrate` also writes
  `TCCR1A` and `TCCR1B` as whole registers; these are numbers.
* Values read from the hardware (`TCNT1`, the input pin `PIND.PD2`) are arguments of
  the handler that reads them.
* A foreground function that cannot return without an interrupt handler running (the
  busy-wait of `uart_send`) or whose behaviour is undefined returns `none`.

The Morse code tables of the second sketch follow in the namespace `Morse`.
-/

namespace MyUart

/-- `#define UART_BUFFER_SIZE 64`. -/
def UART_BUFFER_SIZE : Nat := 64

/-- Integer promotion of a (signed) `char` to a 16-bit `int`, as a two's complement
bit pattern. -/
def sext16 (c : Nat) : Nat := if c < 128 then c else c + 0xFF00

/-- The globals of `main.cpp` (and the two `static` locals of `loop`) together with the
register bits the program touches; `TCCR1A` and `TCCR1B` are written as whole registers. -/
structure State where
  tx_buffer : Nat → Nat := fun _ => 0
  tx_head : Nat := 0
  tx_tail : Nat := 0
  rx_buffer : Nat → Nat := fun _ => 0
  rx_head : Nat := 0
  rx_tail : Nat := 0
  tx_shift_register : Nat := 0
  tx_bit_count : Nat := 0
  rx_byte : Nat := 0
  rx_bit_count : Nat := 0
  timer_ticks_per_bit : Nat := 0
  tx_byte_count : Nat := 0
  rx_byte_count : Nat := 0
  rx_interrupt_count : Nat := 0
  OCR1A : Nat := 0
  OCR1B : Nat := 0
  PORTD_PD3 : Bool := false
  TIMSK1_OCIE1A : Bool := false
  TIMSK1_OCIE1B : Bool := false
  EIMSK_INT0 : Bool := false
  EIFR_INTF0 : Bool := false
  TIFR1_OCF1B : Bool := false
  DDRD_PD3 : Bool := false
  DDRD_PD2 : Bool := false
  PORTD_PD2 : Bool := false
  TCCR1A : Nat := 0
  TCCR1B : Nat := 0
  EICRA_ISC01 : Bool := false
  SREG_I : Bool := false
  loop_counter : Nat := 0
  last_debug_time : Nat := 0

/-- The three objects a ring-buffer routine receives by pointer: the storage and the
two indices. -/
structure Ring where
  buffer : Nat → Nat
  head : Nat
  tail : Nat

/-- The transmit ring `tx_buffer`, `tx_head`, `tx_tail`. -/
def State.txRing (s : State) : Ring :=
  { buffer := s.tx_buffer, head := s.tx_head, tail := s.tx_tail }

/-- The receive ring `rx_buffer`, `rx_head`, `rx_tail`. -/
def State.rxRing (s : State) : Ring :=
  { buffer := s.rx_buffer, head := s.rx_head, tail := s.rx_tail }

/-- Write back what a routine left behind the pointers to the transmit ring. -/
def State.withTx (s : State) (r : Ring) : State :=
  { s with tx_buffer := r.buffer, tx_head := r.head, tx_tail := r.tail }

/-- Write back what a routine left behind the pointers to the receive ring. -/
def State.withRx (s : State) (r : Ring) : State :=
  { s with rx_buffer := r.buffer, rx_head := r.head, rx_tail := r.tail }

/-- `uart_rx_available`: `count = (rx_head - rx_tail) % UART_BUFFER_SIZE`.  Both indices
are promoted to `int`, the remainder is the truncating C remainder, and the result is
converted to `uint8_t`. -/
def uart_rx_available (s : State) : Nat :=
  ((Int.tmod ((s.rx_head : Int) - (s.rx_tail : Int)) (UART_BUFFER_SIZE : Int)) % 256).toNat

/-- `buffer_put(buffer, &head, &tail, data)`. -/
def buffer_put (r : Ring) (data : Nat) : Ring :=
  let next_head := (r.head + 1) % UART_BUFFER_SIZE
  if next_head ≠ r.tail then
    let r := { r with buffer := Function.update r.buffer r.head data }
    { r with head := next_head }
  else
    r

/-- `buffer_get(buffer, &tail, &head)`: the returned `char` and the ring afterwards.
The `return -1` of the empty case is the raw byte `0xFF`. -/
def buffer_get (r : Ring) : Nat × Ring :=
  if r.head = r.tail then
    (0xFF, r)
  else
    let data := r.buffer r.tail
    (data, { r with tail := (r.tail + 1) % UART_BUFFER_SIZE })

/-- `ISR(TIMER1_COMPA_vect)`. -/
def TIMER1_COMPA (s : State) : State :=
  let s := { s with OCR1A := (s.OCR1A + s.timer_ticks_per_bit) % 65536 }
  if s.tx_bit_count > 0 then
    let s := if s.tx_shift_register &&& 0x01 ≠ 0 then { s with PORTD_PD3 := true }
             else { s with PORTD_PD3 := false }
    let s := { s with tx_shift_register := s.tx_shift_register >>> 1 }
    { s with tx_bit_count := s.tx_bit_count - 1 }
  else
    if s.tx_head ≠ s.tx_tail then
      let g := buffer_get s.txRing
      let next_byte := g.1
      let s := s.withTx g.2
      let s := { s with tx_shift_register := ((sext16 next_byte <<< 1) ||| 0x200) % 65536 }
      let s := { s with tx_bit_count := 10 }
      let s := { s with PORTD_PD3 := false }
      let s := { s with tx_shift_register := s.tx_shift_register >>> 1 }
      let s := { s with tx_bit_count := s.tx_bit_count - 1 }
      { s with tx_byte_count := (s.tx_byte_count + 1) % 4294967296 }
    else
      let s := { s with TIMSK1_OCIE1A := false }
      { s with PORTD_PD3 := true }

/-- `ISR(TIMER1_COMPB_vect)`; `pind_pd2` is the level read by `RX_PIN_REG & (1 << RX_PIN)`. -/
def TIMER1_COMPB (pind_pd2 : Bool) (s : State) : State :=
  let s := { s with OCR1B := (s.OCR1B + s.timer_ticks_per_bit) % 65536 }
  if s.rx_bit_count < 8 then
    let s := { s with rx_byte := s.rx_byte >>> 1 }
    let s := if pind_pd2 then { s with rx_byte := s.rx_byte ||| 0x80 } else s
    { s with rx_bit_count := s.rx_bit_count + 1 }
  else
    let s := { s with TIMSK1_OCIE1B := false }
    let s := s.withRx (buffer_put s.rxRing s.rx_byte)
    let s := { s with rx_byte_count := (s.rx_byte_count + 1) % 4294967296 }
    let s := { s with EIFR_INTF0 := false }
    { s with EIMSK_INT0 := true }

/-- `ISR(INT0_vect)`; `tcnt1` is the value read from `TCNT1`. -/
def INT0 (tcnt1 : Nat) (s : State) : State :=
  let s := { s with EIMSK_INT0 := false }
  let s := { s with OCR1B := (tcnt1 + s.timer_ticks_per_bit + s.timer_ticks_per_bit / 2) % 65536 }
  let s := { s with rx_byte := 0 }
  let s := { s with rx_bit_count := 0 }
  let s := { s with rx_interrupt_count := (s.rx_interrupt_count + 1) % 4294967296 }
  let s := { s with TIFR1_OCF1B := false }
  { s with TIMSK1_OCIE1B := true }

/-- `uart_send(b)`; `tcnt1` is the value read from `TCNT1`.  The function runs in the
foreground; with no interrupt handler running in between, `tx_tail` cannot change, so
the loop `while (next_head == tx_tail) {}` never exits when its condition holds on
entry: that outcome is `none`. -/
def uart_send (tcnt1 : Nat) (b : Nat) (s : State) : Option State :=
  let next_head := (s.tx_head + 1) % UART_BUFFER_SIZE
  if next_head = s.tx_tail then
    none
  else
    let is_tx_idle := (s.TIMSK1_OCIE1A == false)
    let s := s.withTx (buffer_put s.txRing b)
    if is_tx_idle then
      let s := { s with OCR1A := (tcnt1 + s.timer_ticks_per_bit) % 65536 }
      some { s with TIMSK1_OCIE1A := true }
    else
      some s

/-- `uart_available`. -/
def uart_available (s : State) : Nat := uart_rx_available s

/-- `uart_read`: the returned `char` and the state afterwards. -/
def uart_read (s : State) : Nat × State :=
  let g := buffer_get s.rxRing
  (g.1, s.withRx g.2)

/-- The loop `while (uart_available()) { rx_data[i++] = uart_read(); }` of
`uart_read_string`, with `i` a `uint8_t`; `fuel` bounds the number of loop tests. -/
def uart_read_string_loop : Nat → State → (Nat → Nat) → Nat → Option (State × (Nat → Nat) × Nat)
  | 0, _, _, _ => none
  | fuel + 1, s, rx_data, i =>
    if uart_available s ≠ 0 then
      let g := uart_read s
      uart_read_string_loop fuel g.2 (Function.update rx_data i g.1) ((i + 1) % 256)
    else
      some (s, rx_data, i)

/-- `uart_read_string(rx_data)`: the returned `bool`, the caller's storage and the state
afterwards. -/
def uart_read_string (fuel : Nat) (rx_data : Nat → Nat) (s : State) :
    Option (Bool × (Nat → Nat) × State) :=
  if uart_available s = 0 then
    some (false, rx_data, s)
  else
    match uart_read_string_loop fuel s rx_data 0 with
    | none => none
    | some (s, rx_data, i) => some (true, Function.update rx_data i 0, s)

/-! ## Auxiliary definitions used to state the properties -/

/-- The bytes a ring holds, oldest first: the cells from `tail` up to `head`,
cyclically. -/
def Ring.contents (r : Ring) : List Nat :=
  (List.range ((r.head + UART_BUFFER_SIZE - r.tail) % UART_BUFFER_SIZE)).map
    (fun i => r.buffer ((r.tail + i) % UART_BUFFER_SIZE))

/-- The 9-bit pattern left in `tx_shift_register` once `TIMER1_COMPA` has fetched the
byte `b` and emitted the start bit: `((b << 1) | 0x200) >> 1` on 16 bits. -/
def frameAfterStart (b : Nat) : Nat :=
  (((sext16 b <<< 1) ||| 0x200) % 65536) >>> 1

/-- The states after each of the next `n` `TIMER1_COMPA` events: entry `k` (from 0) is
the state after event `k + 1`. -/
def txTrace (n : Nat) (s : State) : List State :=
  (List.range n).map (fun k => TIMER1_COMPA^[k + 1] s)

/-- One operation issued on a ring buffer. -/
inductive RingOp where
  | put (v : Nat)
  | get

/-- Run a sequence of operations on a ring and collect the bytes the gets return.
`buffer_get` is guarded the way its callers guard it (`if (tx_head != tx_tail)`): it is
called only when `head != tail`. -/
def ringRun : Ring → List RingOp → List Nat
  | _, [] => []
  | r, RingOp.put v :: ops => ringRun (buffer_put r v) ops
  | r, RingOp.get :: ops =>
    if r.head ≠ r.tail then (buffer_get r).1 :: ringRun (buffer_get r).2 ops
    else ringRun r ops

/-- Specification model, written from the spec's words: a FIFO queue that holds at most
63 items; a put on a full queue is refused, a get on an empty queue is not issued. -/
def fifoRun : List Nat → List RingOp → List Nat
  | _, [] => []
  | q, RingOp.put v :: ops => fifoRun (if q.length < 63 then q ++ [v] else q) ops
  | [], RingOp.get :: ops => fifoRun [] ops
  | x :: q, RingOp.get :: ops => x :: fifoRun q ops

/-- Specification model, written from the spec's words: the bytes accepted by the puts,
i.e. those issued while fewer than 63 items were held (`held` is the number held). -/
def fifoAccepted : Nat → List RingOp → List Nat
  | _, [] => []
  | held, RingOp.put v :: ops =>
    if held < 63 then v :: fifoAccepted (held + 1) ops else fifoAccepted held ops
  | held, RingOp.get :: ops => fifoAccepted (held - 1) ops

/-- One unguarded operation on a ring, together with a count of the bytes stored and
not yet handed out: a put that stores adds one, a get that returns a byte removes one. -/
def ringExec (c : Ring × Nat) : RingOp → Ring × Nat
  | RingOp.put v =>
    (buffer_put c.1 v, if (c.1.head + 1) % UART_BUFFER_SIZE ≠ c.1.tail then c.2 + 1 else c.2)
  | RingOp.get =>
    ((buffer_get c.1).2, if c.1.head ≠ c.1.tail then c.2 - 1 else c.2)

/-- Consecutive `uart_send` calls with no interrupt in between; each entry is the
`TCNT1` value read by the call and the byte sent.  `none` when a call busy-waits. -/
def uart_send_all : List (Nat × Nat) → State → Option State
  | [], s => some s
  | (tcnt1, b) :: rest, s =>
    match uart_send tcnt1 b s with
    | none => none
    | some s' => uart_send_all rest s'

/-- An empty ring at index 0. -/
def ringEmpty : Ring := { buffer := fun _ => 0, head := 0, tail := 0 }

/-- A ring holding the two bytes `'H'`, `'I'` across the wrap-around: cells 63 and 0. -/
def ringWrapped : Ring :=
  { buffer := fun i => if i = 63 then 0x48 else if i = 0 then 0x49 else 0, head := 1, tail := 63 }

/-- A full ring: 63 bytes held, `head` just behind `tail`. -/
def ringFull : Ring := { buffer := fun i => i, head := 62, tail := 63 }

/-- A ring holding the single byte `0xFF`. -/
def ringFF : Ring := { buffer := fun _ => 0xFF, head := 1, tail := 0 }

/-- A state whose receive ring is `ringWrapped`. -/
def stateWrapped : State := ({} : State).withRx ringWrapped

/-- A state ready to frame the byte `0x41`: the byte is queued and the compare interrupt
is armed, at 9600 baud. -/
def stateA : State :=
  { tx_buffer := fun _ => 0x41, tx_head := 1, timer_ticks_per_bit := 208,
    TIMSK1_OCIE1A := true }

/-- The receive accumulator after one sampling step of `TIMER1_COMPB`:
`rx_byte >>= 1; if (pin) rx_byte |= 0x80`. -/
def rxShift (x : Nat) (level : Bool) : Nat :=
  if level then (x >>> 1) ||| 0x80 else x >>> 1

/-- Consecutive `TIMER1_COMPB` events, one per sampled input level. -/
def rxSample (levels : List Bool) (s : State) : State :=
  levels.foldl (fun s level => TIMER1_COMPB level s) s

/-- The receive side at rest after initialisation at 9600 baud: edge interrupt armed,
sampling interrupt disarmed, line high. -/
def stateIdle : State :=
  { timer_ticks_per_bit := 208, PORTD_PD3 := true, EIMSK_INT0 := true }

/-- One bit period of the loop-back wiring (output pin PD3 wired to input pin PD2), as
seen by the handlers.  At the bit boundary the transmit compare interrupt fires if it is
armed.  A transition of the wire from high to low latches the edge flag `INTF0`.  If the
edge interrupt is armed and its flag is set, `INT0` fires (the hardware clears the flag,
the handler reads `tcnt1` from `TCNT1`) and its first sample falls into the next bit
period; otherwise, if the sampling interrupt is armed, `TIMER1_COMPB` fires mid-bit and
reads the level the wire has during this period. -/
def loopbackTick (s : State) (tcnt1 : Nat) : State :=
  let s1 := if s.TIMSK1_OCIE1A then TIMER1_COMPA s else s
  let s2 := if s.PORTD_PD3 && !s1.PORTD_PD3 then { s1 with EIFR_INTF0 := true } else s1
  if s2.EIMSK_INT0 && s2.EIFR_INTF0 then INT0 tcnt1 { s2 with EIFR_INTF0 := false }
  else if s2.TIMSK1_OCIE1B then TIMER1_COMPB s2.PORTD_PD3 s2
  else s2

/-- Consecutive bit periods of the loop-back wiring, one `TCNT1` reading per period. -/
def loopbackRun (ticks : List Nat) (s : State) : State :=
  ticks.foldl loopbackTick s

/-- Drain the receive buffer the way `loop()` does: `uart_read()` as long as
`uart_available()` is non-zero.  `none` if `fuel` tests do not reach the empty buffer. -/
def uart_drain : Nat → State → Option (List Nat)
  | 0, _ => none
  | fuel + 1, s =>
    if uart_available s ≠ 0 then
      (uart_drain fuel (uart_read s).2).map (fun rest => (uart_read s).1 :: rest)
    else
      some []

/-- The receive accumulator after the first `m` data bits of `b` were sampled. -/
def rxPartial (b : Nat) : Nat → Nat
  | 0 => 0
  | m + 1 => rxShift (rxPartial b m) (b.testBit m)

/-- Loop-back invariant between frames: both engines at rest on a high line with no
edge pending, the transmit ring holding `txs` and the receive ring holding `rxs`. -/
def LoopIdle (txs rxs : List Nat) (s : State) : Prop :=
  s.tx_bit_count = 0 ∧ s.PORTD_PD3 = true ∧ s.EIMSK_INT0 = true ∧ s.EIFR_INTF0 = false ∧
    s.TIMSK1_OCIE1B = false ∧
    s.tx_head < 64 ∧ s.tx_tail < 64 ∧ s.rx_head < 64 ∧ s.rx_tail < 64 ∧
    s.txRing.contents = txs ∧ s.rxRing.contents = rxs ∧ (txs ≠ [] → s.TIMSK1_OCIE1A = true)

/-- Loop-back invariant `k` bit periods (1 ≤ k ≤ 9) into the frame of the byte `b`. -/
def LoopFrame (k b : Nat) (txs rxs : List Nat) (s : State) : Prop :=
  s.tx_bit_count = 10 - k ∧ s.tx_shift_register = frameAfterStart b >>> (k - 1) ∧
    s.TIMSK1_OCIE1A = true ∧ s.EIMSK_INT0 = false ∧ s.TIMSK1_OCIE1B = true ∧
    s.rx_bit_count = k - 1 ∧ s.rx_byte = rxPartial b (k - 1) ∧
    s.tx_head < 64 ∧ s.tx_tail < 64 ∧ s.rx_head < 64 ∧ s.rx_tail < 64 ∧
    s.txRing.contents = txs ∧ s.rxRing.contents = rxs

/-! ## Initialisation, diagnostics and the main loop -/

/-- `uart_set_baudrate(rate)`.  `rate` is a `long`; in `(F_CPU / prescaler) / rate` it is
converted to `unsigned long`, the quotient is an `unsigned long` and the store into the
`uint16_t` `timer_ticks_per_bit` keeps its low 16 bits.  A division by zero is undefined:
`none`.  `CS11` is the bit position `<avr/io.h>` gives for the prescaler-8 select bit. -/
def uart_set_baudrate (CS11 : Nat) (rate : Int) (s : State) : Option State :=
  let s := { s with DDRD_PD3 := true }
  let s := { s with PORTD_PD3 := true }
  let s := { s with DDRD_PD2 := false }
  let s := { s with PORTD_PD2 := true }
  let prescaler := 8
  let rate_ul := (rate % 4294967296).toNat
  if rate_ul = 0 then
    none
  else
    let s := { s with timer_ticks_per_bit := ((16000000 / prescaler) / rate_ul) % 65536 }
    let s := { s with TCCR1A := 0 }
    let s := { s with TCCR1B := (1 <<< CS11) % 256 }
    let s := { s with EICRA_ISC01 := true }
    let s := { s with EIMSK_INT0 := true }
    some { s with SREG_I := true }

/-- The bytes of a C string literal. -/
def cstr (lit : String) : List Nat := lit.toList.map Char.toNat

/-- `uart_send_string(msg)`: `while (*msg) uart_send(*msg++)`; the string ends at its
first zero byte.  `tcnt1` is what a call that finds the transmitter idle reads from
`TCNT1`.  `none` when a `uart_send` busy-waits. -/
def uart_send_string (tcnt1 : Nat) : List Nat → State → Option State
  | [], s => some s
  | b :: msg, s =>
    if b = 0 then some s
    else (uart_send tcnt1 b s).bind (uart_send_string tcnt1 msg)

/-- The digits `ultoa(num, buffer, radix)` and `itoa(value, buffer, radix)` of the C
library write for a non-negative value (lower-case, most significant first). -/
def ultoa (num radix : Nat) : List Nat := (Nat.toDigits radix num).map Char.toNat

/-- `uart_send_number(num)`. -/
def uart_send_number (tcnt1 : Nat) (num : Nat) (s : State) : Option State :=
  uart_send_string tcnt1 (ultoa num 10) s

/-- `print_debug_stats()`. -/
def print_debug_stats (tcnt1 : Nat) (s : State) : Option State :=
  (uart_send_string tcnt1 (cstr "TX bytes: ") s).bind fun s =>
  (uart_send_number tcnt1 s.tx_byte_count s).bind fun s =>
  (uart_send_string tcnt1 (cstr "\nRX bytes: ") s).bind fun s =>
  (uart_send_number tcnt1 s.rx_byte_count s).bind fun s =>
  (uart_send_string tcnt1 (cstr "\nRX interrupts: ") s).bind fun s =>
  (uart_send_number tcnt1 s.rx_interrupt_count s).bind fun s =>
  (uart_send_string tcnt1 (cstr "\nBuffer available: ") s).bind fun s =>
  uart_send_number tcnt1 (uart_available s) s

/-- `#define DEBUG_MODE 1`. -/
def DEBUG_MODE : Nat := 1

/-- The body of `if (DEBUG_MODE) { ... }` in `loop()`: the annotated echo of the received
character.  `itoa(received_char, hex, 16)` treats the promoted `char` as an unsigned
16-bit value; more than two digits overrun `char hex[3]`, which is undefined: `none`. -/
def loop_echo (tcnt1 received_char : Nat) (s : State) : Option State :=
  (uart_send_string tcnt1 (cstr "[RX: \x27") s).bind fun s =>
  (uart_send tcnt1 received_char s).bind fun s =>
  (uart_send_string tcnt1 (cstr "\x27 (0x") s).bind fun s =>
  let hex := ultoa (sext16 received_char) 16
  if 3 < hex.length + 1 then none
  else
    (uart_send_string tcnt1 hex s).bind fun s =>
    uart_send_string tcnt1 (cstr ")] ") s

/-- The `if (received_char == '?') ... else if ...` chain of `loop()`: the diagnostic
commands. -/
def loop_command (tcnt1 received_char : Nat) (s : State) : Option State :=
  if received_char = '?'.toNat then
    (uart_send_string tcnt1 (cstr "? - Show help\n") s).bind fun s =>
    (uart_send_string tcnt1 (cstr "s - Show statistics\n") s).bind fun s =>
    (uart_send_string tcnt1 (cstr "t - Send test pattern\n") s).bind fun s =>
    uart_send_string tcnt1 (cstr "r - Reset counters\n\n") s
  else if received_char = 's'.toNat then
    print_debug_stats tcnt1 s
  else if received_char = 't'.toNat then
    uart_send_string tcnt1 (cstr "\nTest\n") s
  else if received_char = 'r'.toNat then
    let s := { s with tx_byte_count := 0 }
    let s := { s with rx_byte_count := 0 }
    let s := { s with rx_interrupt_count := 0 }
    uart_send_string tcnt1 (cstr "\nCounters reset!\n") s
  else some s

/-- `loop()`.  `none` when a `uart_send` busy-waits or the echo overruns `hex`. -/
def loop (tcnt1 : Nat) (s : State) : Option State :=
  let s := { s with loop_counter := (s.loop_counter + 1) % 4294967296 }
  (if DEBUG_MODE ≠ 0 ∧ s.loop_counter % 10000 = 0 then
      (print_debug_stats tcnt1 s).bind fun s =>
      some { s with last_debug_time := s.loop_counter }
    else some s).bind fun s =>
  if uart_available s ≠ 0 then
    let r := uart_read s
    let received_char := r.1
    let s := r.2
    (if DEBUG_MODE ≠ 0 then loop_echo tcnt1 received_char s else some s).bind fun s =>
    (uart_send tcnt1 received_char s).bind fun s =>
    loop_command tcnt1 received_char s
  else some s

/-- What can happen to the driver: an interrupt handler runs or a foreground call
returns. -/
inductive Event where
  | int0 (tcnt1 : Nat)
  | compa
  | compb (pind_pd2 : Bool)
  | send (tcnt1 b : Nat)
  | read

/-- The effect of one event.  A `uart_send` that would busy-wait has not returned and
has changed nothing. -/
def step (s : State) : Event → State
  | Event.int0 tcnt1 => INT0 tcnt1 s
  | Event.compa => TIMER1_COMPA s
  | Event.compb pind_pd2 => TIMER1_COMPB pind_pd2 s
  | Event.send tcnt1 b => (uart_send tcnt1 b s).getD s
  | Event.read => (uart_read s).2

/-- A state in which the command byte `'r'` has been received, after some traffic, while
the transmitter is idle. -/
def stateCmdR : State :=
  { rx_buffer := fun _ => 0x72, rx_head := 1, timer_ticks_per_bit := 208,
    tx_byte_count := 5, rx_byte_count := 1, rx_interrupt_count := 1,
    PORTD_PD3 := true, EIMSK_INT0 := true }

/-- The receive engine about to complete a byte, with the 32-bit counter `rx_byte_count`
at its largest value. -/
def stateCountMax : State :=
  { rx_bit_count := 8, rx_byte := 0x41, rx_byte_count := 4294967295,
    TIMSK1_OCIE1B := true, timer_ticks_per_bit := 208 }

/-- Relation between the states before and after foreground calls that only enqueue the
bytes `msg` for transmission: the transmit ring has grown by `msg`, the compare interrupt
is armed if anything was enqueued, and apart from the storage, `tx_head`, `OCR1A` and the
arm bit nothing has changed. -/
def SentOnly (s s' : State) (msg : List Nat) : Prop :=
  s'.txRing.contents = s.txRing.contents ++ msg ∧ s'.tx_head < 64 ∧
    (msg ≠ [] → s'.TIMSK1_OCIE1A = true) ∧
    (s.TIMSK1_OCIE1A = true → s'.TIMSK1_OCIE1A = true) ∧
    s' = { s with tx_buffer := s'.tx_buffer, tx_head := s'.tx_head, OCR1A := s'.OCR1A
                  TIMSK1_OCIE1A := s'.TIMSK1_OCIE1A }

/-- The state in which `loop()` returns after handling the `'r'` of `stateCmdR`. -/
def stateAfterReset : State := (loop 0 stateCmdR).getD {}

/-- The state once the transmit engine has sent everything `loop()` enqueued for that
`'r'`: 35 bytes, 351 `TIMER1_COMPA` events. -/
def stateReplySent : State := TIMER1_COMPA^[351] stateAfterReset

/-- The state after a `print_debug_stats()` issued at that point. -/
def stateReported : State := (print_debug_stats 0 stateReplySent).getD {}

end MyUart

/-!
# Morse transceiver (`src/MorseCode/arduino_2/read_and_write_two.cpp`): code tables
-/

namespace Morse

/-- `char decode(String s)`. -/
def decode (s : String) : Char :=
  if s = ".-" then 'A' else if s = "-..." then 'B' else if s = "-.-." then 'C'
  else if s = "-.." then 'D' else if s = "." then 'E' else if s = "..-." then 'F'
  else if s = "--." then 'G' else if s = "...." then 'H' else if s = ".." then 'I'
  else if s = ".---" then 'J' else if s = "-.-" then 'K' else if s = ".-.." then 'L'
  else if s = "--" then 'M' else if s = "-." then 'N' else if s = "---" then 'O'
  else if s = ".--." then 'P' else if s = "--.-" then 'Q' else if s = ".-." then 'R'
  else if s = "..." then 'S' else if s = "-" then 'T' else if s = "..-" then 'U'
  else if s = "...-" then 'V' else if s = ".--" then 'W' else if s = "-..-" then 'X'
  else if s = "-.--" then 'Y' else if s = "--.." then 'Z'
  else if s = ".----" then '1' else if s = "..---" then '2' else if s = "...--" then '3'
  else if s = "....-" then '4' else if s = "....." then '5' else if s = "-...." then '6'
  else if s = "--..." then '7' else if s = "---.." then '8' else if s = "----." then '9'
  else if s = "-----" then '0'
  else '?'

/-- `const char* letters[]`. -/
def letters : List String :=
  [".-", "-...", "-.-.", "-..", ".", "..-.", "--.", "....", "..", ".---", "-.-", ".-..",
    "--", "-.", "---", ".--.", "--.-", ".-.", "...", "-", "..-", "...-", ".--", "-..-",
    "-.--", "--.."]

/-- `const char* numbers[]`. -/
def numbers : List String :=
  ["-----", ".----", "..---", "...--", "....-", ".....", "-....", "--...", "---..", "----."]

/-- The code string `loop()` hands to `sendPulse` for an upper-case letter:
`letters[c - 'A']`. -/
def letterCode (c : Char) : String := letters.getD (c.toNat - 'A'.toNat) ""

/-- The code string `loop()` hands to `sendPulse` for a digit: `numbers[c - '0']`. -/
def digitCode (c : Char) : String := numbers.getD (c.toNat - '0'.toNat) ""

end Morse

namespace MyUart

/-! ## Transmit engine: framing -/

theorem COMPA_fetch (s : State) (h0 : s.tx_bit_count = 0) (hne : s.tx_head ≠ s.tx_tail) :
    TIMER1_COMPA s =
      { s with OCR1A := (s.OCR1A + s.timer_ticks_per_bit) % 65536
               tx_tail := (s.tx_tail + 1) % 64
               tx_shift_register := frameAfterStart (s.tx_buffer s.tx_tail)
               tx_bit_count := 9
               PORTD_PD3 := false
               tx_byte_count := (s.tx_byte_count + 1) % 4294967296 } := by
  simp [TIMER1_COMPA, h0, hne, buffer_get, frameAfterStart, UART_BUFFER_SIZE, State.txRing,
    State.withTx]

theorem COMPA_shift (s : State) (h : 0 < s.tx_bit_count) :
    TIMER1_COMPA s =
      { s with OCR1A := (s.OCR1A + s.timer_ticks_per_bit) % 65536
               PORTD_PD3 := s.tx_shift_register.testBit 0
               tx_shift_register := s.tx_shift_register >>> 1
               tx_bit_count := s.tx_bit_count - 1 } := by
  by_cases hc : s.tx_shift_register % 2 = 1
  · simp [TIMER1_COMPA, h, hc, Nat.testBit_zero]
  · simp [TIMER1_COMPA, h, hc, Nat.testBit_zero]

/-- Closed form of the state `k + 1` compare events after a byte is fetched. -/
theorem COMPA_frame_iter (k : Nat) (s : State) (hk : k ≤ 9)
    (h0 : s.tx_bit_count = 0) (hne : s.tx_head ≠ s.tx_tail) :
    TIMER1_COMPA^[k + 1] s =
      { s with OCR1A := (s.OCR1A + (k + 1) * s.timer_ticks_per_bit) % 65536
               tx_tail := (s.tx_tail + 1) % 64
               tx_shift_register := frameAfterStart (s.tx_buffer s.tx_tail) >>> k
               tx_bit_count := 9 - k
               PORTD_PD3 :=
                 if k = 0 then false else (frameAfterStart (s.tx_buffer s.tx_tail)).testBit (k - 1)
               tx_byte_count := (s.tx_byte_count + 1) % 4294967296 } := by
  induction k with
  | zero =>
    rw [Function.iterate_succ_apply', Function.iterate_zero_apply, COMPA_fetch s h0 hne]
    simp
  | succ k ih =>
    rw [Function.iterate_succ_apply', ih (by omega), COMPA_shift _ (by simp; omega)]
    simp [Nat.testBit_shiftRight, Nat.shiftRight_add, Nat.succ_mul]
    refine ⟨?_, ?_⟩
    · omega
    · omega

set_option maxRecDepth 1000000 in
/-- Bits 0..7 of the frame are the bits of the byte, bit 8 is the stop bit. -/
theorem frameAfterStart_bits :
    ∀ b, b < 256 → (∀ i, i < 8 → (frameAfterStart b).testBit i = b.testBit i) ∧
      (frameAfterStart b).testBit 8 = true := by
  decide

/-- C1: with the compare interrupt armed, `tx_bit_count = 0` and the byte `b` at the tail
of a non-empty transmit buffer, the next ten `TIMER1_COMPA` events drive the output pin
low, then to bits 0..7 of `b`, then high; `tx_bit_count` runs 9, 8, ..., 1 and is 0 again
only after the tenth event; the interrupt stays armed throughout.  For `b = 0x41` the
levels are low,1,0,0,0,0,0,1,0,high. -/
theorem C1_tx_frame (b : Nat) (hb : b < 256) (s : State)
    (harm : s.TIMSK1_OCIE1A = true) (h0 : s.tx_bit_count = 0)
    (hne : s.tx_head ≠ s.tx_tail) (hbyte : s.tx_buffer s.tx_tail = b) :
    (txTrace 10 s).map (fun t => t.PORTD_PD3) =
        [false, b.testBit 0, b.testBit 1, b.testBit 2, b.testBit 3, b.testBit 4,
          b.testBit 5, b.testBit 6, b.testBit 7, true] ∧
      (txTrace 10 s).map (fun t => t.tx_bit_count) = [9, 8, 7, 6, 5, 4, 3, 2, 1, 0] ∧
      (∀ t ∈ txTrace 10 s, t.TIMSK1_OCIE1A = true) ∧
      (b = 0x41 → (txTrace 10 s).map (fun t => t.PORTD_PD3) =
        [false, true, false, false, false, false, false, true, false, true]) := by
  have hr : List.range 10 = [0, 1, 2, 3, 4, 5, 6, 7, 8, 9] := by decide
  have hbits := frameAfterStart_bits b hb
  have hlev : (txTrace 10 s).map (fun t => t.PORTD_PD3) =
      [false, b.testBit 0, b.testBit 1, b.testBit 2, b.testBit 3, b.testBit 4,
        b.testBit 5, b.testBit 6, b.testBit 7, true] := by
    simp only [txTrace, hr, List.map_cons, List.map_nil]
    rw [COMPA_frame_iter 0 s (by omega) h0 hne, COMPA_frame_iter 1 s (by omega) h0 hne,
      COMPA_frame_iter 2 s (by omega) h0 hne, COMPA_frame_iter 3 s (by omega) h0 hne,
      COMPA_frame_iter 4 s (by omega) h0 hne, COMPA_frame_iter 5 s (by omega) h0 hne,
      COMPA_frame_iter 6 s (by omega) h0 hne, COMPA_frame_iter 7 s (by omega) h0 hne,
      COMPA_frame_iter 8 s (by omega) h0 hne, COMPA_frame_iter 9 s (by omega) h0 hne]
    simp [hbyte, hbits.1, hbits.2]
  refine ⟨hlev, ?_, ?_, ?_⟩
  · simp only [txTrace, hr, List.map_cons, List.map_nil]
    rw [COMPA_frame_iter 0 s (by omega) h0 hne, COMPA_frame_iter 1 s (by omega) h0 hne,
      COMPA_frame_iter 2 s (by omega) h0 hne, COMPA_frame_iter 3 s (by omega) h0 hne,
      COMPA_frame_iter 4 s (by omega) h0 hne, COMPA_frame_iter 5 s (by omega) h0 hne,
      COMPA_frame_iter 6 s (by omega) h0 hne, COMPA_frame_iter 7 s (by omega) h0 hne,
      COMPA_frame_iter 8 s (by omega) h0 hne, COMPA_frame_iter 9 s (by omega) h0 hne]
  · intro t ht
    simp only [txTrace, List.mem_map, List.mem_range] at ht
    obtain ⟨k, hk, rfl⟩ := ht
    rw [COMPA_frame_iter k s (by omega) h0 hne]
    exact harm
  · intro h41
    rw [hlev, h41]
    decide

/-- Witness for C1: the frame of `0x41` from `stateA`. -/
theorem C1_tx_frame_witness :
    stateA.TIMSK1_OCIE1A = true ∧ stateA.tx_bit_count = 0 ∧ stateA.tx_head ≠ stateA.tx_tail ∧
      stateA.tx_buffer stateA.tx_tail = 0x41 ∧
      (txTrace 10 stateA).map (fun t => t.PORTD_PD3) =
        [false, true, false, false, false, false, false, true, false, true] ∧
      (txTrace 10 stateA).map (fun t => t.tx_bit_count) = [9, 8, 7, 6, 5, 4, 3, 2, 1, 0] :=
  have h := C1_tx_frame 0x41 (by decide) stateA rfl rfl (by decide) rfl
  ⟨rfl, rfl, by decide, rfl, h.2.2.2 rfl, h.2.1⟩

/-! ## Ring buffer -/

theorem Ring.contents_length (r : Ring) :
    r.contents.length = (r.head + 64 - r.tail) % 64 := by
  simp [Ring.contents, UART_BUFFER_SIZE]

theorem Ring.contents_eq_nil_iff (r : Ring) (hh : r.head < 64) (ht : r.tail < 64) :
    r.contents = [] ↔ r.head = r.tail := by
  rw [← List.length_eq_zero, Ring.contents_length]
  omega

theorem buffer_put_full (r : Ring) (v : Nat) (hf : (r.head + 1) % 64 = r.tail) :
    buffer_put r v = r := by
  simp [buffer_put, UART_BUFFER_SIZE, hf]

theorem buffer_put_room (r : Ring) (v : Nat) (hf : (r.head + 1) % 64 ≠ r.tail) :
    buffer_put r v =
      { buffer := Function.update r.buffer r.head v, head := (r.head + 1) % 64, tail := r.tail } := by
  simp [buffer_put, UART_BUFFER_SIZE, hf]

theorem buffer_get_empty (r : Ring) (he : r.head = r.tail) : buffer_get r = (0xFF, r) := by
  simp [buffer_get, he]

theorem buffer_get_nonempty (r : Ring) (hne : r.head ≠ r.tail) :
    buffer_get r = (r.buffer r.tail, { r with tail := (r.tail + 1) % 64 }) := by
  simp [buffer_get, hne, UART_BUFFER_SIZE]

theorem Ring.contents_put (r : Ring) (v : Nat) (hh : r.head < 64) (ht : r.tail < 64)
    (hf : (r.head + 1) % 64 ≠ r.tail) :
    (buffer_put r v).contents = r.contents ++ [v] := by
  rw [buffer_put_room r v hf]
  have hn : ((r.head + 1) % 64 + 64 - r.tail) % 64 = (r.head + 64 - r.tail) % 64 + 1 := by
    omega
  simp only [Ring.contents, UART_BUFFER_SIZE, hn, List.range_succ, List.map_append,
    List.map_cons, List.map_nil]
  congr 1
  · apply List.map_congr_left
    intro i hi
    rw [List.mem_range] at hi
    have : (r.tail + i) % 64 ≠ r.head := by omega
    simp [Function.update_noteq this]
  · have : (r.tail + (r.head + 64 - r.tail) % 64) % 64 = r.head := by omega
    rw [this, Function.update_same]

theorem Ring.contents_get (r : Ring) (hh : r.head < 64) (ht : r.tail < 64)
    (hne : r.head ≠ r.tail) :
    r.contents = (buffer_get r).1 :: (buffer_get r).2.contents := by
  rw [buffer_get_nonempty r hne]
  have hn : (r.head + 64 - r.tail) % 64 = (r.head + 64 - (r.tail + 1) % 64) % 64 + 1 := by
    omega
  simp only [Ring.contents, UART_BUFFER_SIZE]
  rw [hn, List.range_succ_eq_map]
  simp only [List.map_cons, List.map_map, Nat.add_zero]
  congr 1
  · rw [Nat.mod_eq_of_lt ht]
  · apply List.map_congr_left
    intro i _
    have : (r.tail + (i + 1)) % 64 = ((r.tail + 1) % 64 + i) % 64 := by omega
    simp [this]

/-- The value `uart_rx_available` computes, for indices inside the buffer: the count
when `rx_tail ≤ rx_head`, and `256 - (rx_tail - rx_head)` once the head has wrapped. -/
theorem uart_rx_available_eq (s : State) (hh : s.rx_head < 64) (ht : s.rx_tail < 64) :
    uart_rx_available s =
      if s.rx_tail ≤ s.rx_head then s.rx_head - s.rx_tail else 256 - (s.rx_tail - s.rx_head) := by
  unfold uart_rx_available
  simp only [UART_BUFFER_SIZE]
  split
  · rename_i hle
    have h1 : ((s.rx_head : Int) - (s.rx_tail : Int)) = ((s.rx_head - s.rx_tail : Nat) : Int) := by
      omega
    rw [h1]
    have h2 : Int.tmod ((s.rx_head - s.rx_tail : Nat) : Int) ((64 : Nat) : Int)
        = (((s.rx_head - s.rx_tail) % 64 : Nat) : Int) := (Int.ofNat_tmod _ _).symm
    rw [h2]
    omega
  · rename_i hlt
    obtain ⟨d, hd⟩ : ∃ d, s.rx_tail = s.rx_head + d + 1 := ⟨s.rx_tail - s.rx_head - 1, by omega⟩
    have h1 : ((s.rx_head : Int) - (s.rx_tail : Int)) = Int.negSucc d := by
      rw [Int.negSucc_eq]; omega
    rw [h1]
    have h2 : Int.tmod (Int.negSucc d) ((64 : Nat) : Int) = -(((d + 1) % 64 : Nat) : Int) := rfl
    rw [h2]
    omega

theorem uart_available_eq_zero_iff (s : State) (hh : s.rx_head < 64) (ht : s.rx_tail < 64) :
    uart_available s = 0 ↔ s.rx_head = s.rx_tail := by
  unfold uart_available
  rw [uart_rx_available_eq s hh ht]
  split <;> omega

set_option maxRecDepth 100000 in
/-- C4 (failing input): with two bytes held across the wrap-around (`rx_head = 1`,
`rx_tail = 63`) `uart_rx_available` and `uart_available` return 194, whereas the
non-negative residue `(rx_head - rx_tail) mod 64`, the number of bytes held, is 2.  The
indices are those reached from the empty ring by 63 puts, 63 gets and 2 more puts. -/
theorem C4_rx_available_wrapped :
    uart_rx_available stateWrapped = 194 ∧ uart_available stateWrapped = 194 ∧
      ((stateWrapped.rx_head : Int) - (stateWrapped.rx_tail : Int)) % 64 = 2 ∧
      stateWrapped.rxRing.contents = [0x48, 0x49] ∧
      ((List.replicate 63 (RingOp.put 0) ++ List.replicate 63 RingOp.get
          ++ [RingOp.put 0x48, RingOp.put 0x49]).foldl ringExec (ringEmpty, 0)).1.head
        = stateWrapped.rx_head ∧
      ((List.replicate 63 (RingOp.put 0) ++ List.replicate 63 RingOp.get
          ++ [RingOp.put 0x48, RingOp.put 0x49]).foldl ringExec (ringEmpty, 0)).1.tail
        = stateWrapped.rx_tail := by
  refine ⟨by decide, by decide, by decide, by decide, by decide, by decide⟩

/-- C5: on a full ring (`(head + 1) mod 64 = tail`) `buffer_put` changes nothing;
otherwise it writes `v` at `storage[head]`, advances `head` to `(head + 1) mod 64` and
leaves `tail` and every other cell unchanged (for every ring and byte; the bounds on the
indices are not needed). -/
theorem C5_buffer_put (r : Ring) (v : Nat) :
    ((r.head + 1) % 64 = r.tail → buffer_put r v = r) ∧
      ((r.head + 1) % 64 ≠ r.tail →
        (buffer_put r v).buffer r.head = v ∧
        (buffer_put r v).head = (r.head + 1) % 64 ∧
        (buffer_put r v).tail = r.tail ∧
        ∀ i, i ≠ r.head → (buffer_put r v).buffer i = r.buffer i) := by
  refine ⟨fun hf => buffer_put_full r v hf, fun hf => ?_⟩
  rw [buffer_put_room r v hf]
  refine ⟨by simp, rfl, rfl, ?_⟩
  intro i hi
  simp [Function.update_noteq hi]

/-- Witness for C5: a put on the empty ring stores, a put on a full ring is a no-op. -/
theorem C5_buffer_put_witness :
    (ringEmpty.head + 1) % 64 ≠ ringEmpty.tail ∧
      (buffer_put ringEmpty 65).buffer ringEmpty.head = 65 ∧
      (buffer_put ringEmpty 65).head = (ringEmpty.head + 1) % 64 ∧
      ((ringFull.head + 1) % 64 = ringFull.tail ∧ buffer_put ringFull 65 = ringFull) :=
  have h := (C5_buffer_put ringEmpty 65).2 (by decide)
  ⟨by decide, h.1, h.2.1, by decide, (C5_buffer_put ringFull 65).1 (by decide)⟩

/-- C6 (counterexample): the ring `ringFF` is not empty and holds the byte `0xFF`, yet
`buffer_get` returns the very value it returns on an empty ring, so this result does not
tell "empty" apart from a stored byte. -/
theorem C6_empty_result_not_distinct :
    ringFF.head ≠ ringFF.tail ∧ ringFF.buffer ringFF.tail < 256 ∧
      (buffer_get ringFF).1 = (buffer_get ringEmpty).1 ∧
      ¬ ((buffer_get ringFF).1 = 0xFF ↔ ringFF.head = ringFF.tail) := by
  decide

/-- C6 (amended): when `head = tail`, `buffer_get` returns `-1` (the raw byte `0xFF`) and
changes nothing; when `head != tail` it returns the byte at `tail`, advances `tail` to
`(tail + 1) mod 64` and leaves `head` and the storage unchanged; `uart_read` does the same
on the receive ring.  The value `0xFF` is returned exactly when the ring is empty or the
byte at `tail` is `0xFF`. -/
theorem C6_buffer_get (r : Ring) (s : State) :
    (r.head = r.tail → buffer_get r = (0xFF, r)) ∧
      (r.head ≠ r.tail →
        (buffer_get r).1 = r.buffer r.tail ∧
        (buffer_get r).2 = { r with tail := (r.tail + 1) % 64 }) ∧
      ((buffer_get r).1 = 0xFF ↔ (r.head = r.tail ∨ r.buffer r.tail = 0xFF)) ∧
      (s.rx_head = s.rx_tail → uart_read s = (0xFF, s)) ∧
      (s.rx_head ≠ s.rx_tail →
        uart_read s = (s.rx_buffer s.rx_tail, { s with rx_tail := (s.rx_tail + 1) % 64 })) := by
  refine ⟨buffer_get_empty r, fun hne => ?_, ?_, fun he => ?_, fun hne => ?_⟩
  · rw [buffer_get_nonempty r hne]
    exact ⟨rfl, rfl⟩
  · by_cases he : r.head = r.tail
    · simp [buffer_get_empty r he, he]
    · simp [buffer_get_nonempty r he, he]
  · have : s.rxRing.head = s.rxRing.tail := he
    simp only [uart_read, buffer_get_empty _ this]
    rfl
  · have : s.rxRing.head ≠ s.rxRing.tail := hne
    simp only [uart_read, buffer_get_nonempty _ this]
    rfl

/-- Witness for C6: a get across the wrap-around, a get on the empty ring, a read. -/
theorem C6_buffer_get_witness :
    ringWrapped.head ≠ ringWrapped.tail ∧
      (buffer_get ringWrapped).1 = 0x48 ∧ (buffer_get ringWrapped).2.tail = 0 ∧
      (ringEmpty.head = ringEmpty.tail ∧ buffer_get ringEmpty = (0xFF, ringEmpty)) ∧
      uart_read stateWrapped = (0x48, { stateWrapped with rx_tail := 0 }) := by
  have h := C6_buffer_get ringWrapped stateWrapped
  have h1 := h.2.1 (by decide)
  refine ⟨by decide, ?_, ?_, ⟨by decide, (C6_buffer_get ringEmpty stateWrapped).1 (by decide)⟩, ?_⟩
  · rw [h1.1]; decide
  · rw [h1.2]; decide
  · rw [h.2.2.2.2 (by decide)]; rfl

theorem ringRun_refines (ops : List RingOp) :
    ∀ (r : Ring) (q : List Nat), r.head < 64 → r.tail < 64 → r.contents = q →
      ringRun r ops = fifoRun q ops := by
  induction ops with
  | nil => intro r q _ _ _; cases q <;> rfl
  | cons op ops ih =>
    intro r q hh ht hq
    have hlen : q.length = (r.head + 64 - r.tail) % 64 := by
      rw [← hq, Ring.contents_length]
    cases op with
    | put v =>
      simp only [ringRun, fifoRun]
      by_cases hf : (r.head + 1) % 64 = r.tail
      · have h63 : ¬ q.length < 63 := by omega
        rw [buffer_put_full r v hf, if_neg h63]
        exact ih r q hh ht hq
      · have h63 : q.length < 63 := by omega
        rw [if_pos h63]
        apply ih
        · rw [buffer_put_room r v hf]
          exact Nat.mod_lt _ (by decide)
        · rw [buffer_put_room r v hf]
          exact ht
        · rw [Ring.contents_put r v hh ht hf, hq]
    | get =>
      by_cases he : r.head = r.tail
      · have hnil : q = [] := by
          rw [← hq]
          exact (Ring.contents_eq_nil_iff r hh ht).mpr he
        subst hnil
        simp only [ringRun, fifoRun, he, ne_eq, not_true_eq_false, if_false]
        exact ih r [] hh ht hq
      · have hc := Ring.contents_get r hh ht he
        rw [hq] at hc
        subst hc
        simp only [ringRun, fifoRun, he, ne_eq, not_false_eq_true, if_true]
        congr 1
        apply ih
        · rw [buffer_get_nonempty r he]; exact hh
        · rw [buffer_get_nonempty r he]; exact Nat.mod_lt _ (by decide)
        · rfl

theorem fifoRun_prefix (ops : List RingOp) :
    ∀ q : List Nat, fifoRun q ops <+: q ++ fifoAccepted q.length ops := by
  induction ops with
  | nil => intro q; cases q <;> simp [fifoRun]
  | cons op ops ih =>
    intro q
    cases op with
    | put v =>
      simp only [fifoRun, fifoAccepted]
      by_cases h63 : q.length < 63
      · simp only [if_pos h63]
        have := ih (q ++ [v])
        simpa using this
      · simp only [if_neg h63]
        exact ih q
    | get =>
      cases q with
      | nil => simpa [fifoRun, fifoAccepted] using ih []
      | cons x q =>
        simp only [fifoRun, fifoAccepted, List.cons_append, List.length_cons,
          Nat.add_sub_cancel]
        exact (List.prefix_cons_inj x).mpr (ih q)

/-- C3: the ring buffer refines a FIFO queue bounded at 63 items.  For every sequence of
`buffer_put` and guarded `buffer_get` operations applied to the empty ring
(`head = tail = 0`, any storage), the bytes the gets return are those the bounded FIFO
returns, and they are an initial segment of the bytes accepted by the puts (those issued
while fewer than 63 items were held), in the order they were put. -/
theorem C3_ring_refines_fifo (buffer : Nat → Nat) (ops : List RingOp) :
    ringRun { buffer := buffer, head := 0, tail := 0 } ops = fifoRun [] ops ∧
      ringRun { buffer := buffer, head := 0, tail := 0 } ops <+: fifoAccepted 0 ops := by
  have h := ringRun_refines ops { buffer := buffer, head := 0, tail := 0 } []
    (by simp) (by simp) (by simp [Ring.contents, UART_BUFFER_SIZE])
  refine ⟨h, ?_⟩
  rw [h]
  simpa using fifoRun_prefix ops []

theorem ringExec_inv (ops : List RingOp) :
    ∀ c : Ring × Nat, c.1.head < 64 → c.1.tail < 64 →
      c.2 = (c.1.head + 64 - c.1.tail) % 64 →
      (ops.foldl ringExec c).1.head < 64 ∧ (ops.foldl ringExec c).1.tail < 64 ∧
        (ops.foldl ringExec c).2 = ((ops.foldl ringExec c).1.head + 64
          - (ops.foldl ringExec c).1.tail) % 64 ∧
        (ops.foldl ringExec c).2 ≤ 63 := by
  induction ops with
  | nil =>
    intro c hh ht hc
    simp only [List.foldl_nil]
    exact ⟨hh, ht, hc, by omega⟩
  | cons op ops ih =>
    intro c hh ht hc
    simp only [List.foldl_cons]
    apply ih
    · cases op with
      | put v =>
        by_cases hf : (c.1.head + 1) % 64 = c.1.tail
        · simp only [ringExec, buffer_put_full _ v hf]; exact hh
        · simp only [ringExec, buffer_put_room _ v hf]; exact Nat.mod_lt _ (by decide)
      | get =>
        by_cases he : c.1.head = c.1.tail
        · simp only [ringExec, buffer_get_empty _ he]; exact hh
        · simp only [ringExec, buffer_get_nonempty _ he]; exact hh
    · cases op with
      | put v =>
        by_cases hf : (c.1.head + 1) % 64 = c.1.tail
        · simp only [ringExec, buffer_put_full _ v hf]; exact ht
        · simp only [ringExec, buffer_put_room _ v hf]; exact ht
      | get =>
        by_cases he : c.1.head = c.1.tail
        · simp only [ringExec, buffer_get_empty _ he]; exact ht
        · simp only [ringExec, buffer_get_nonempty _ he]; exact Nat.mod_lt _ (by decide)
    · cases op with
      | put v =>
        by_cases hf : (c.1.head + 1) % 64 = c.1.tail
        · simp only [ringExec, buffer_put_full _ v hf, UART_BUFFER_SIZE, hf, ne_eq,
            not_true_eq_false, if_false]
          exact hc
        · simp only [ringExec, buffer_put_room _ v hf, UART_BUFFER_SIZE, hf, ne_eq,
            not_false_eq_true, if_true]
          omega
      | get =>
        by_cases he : c.1.head = c.1.tail
        · simp only [ringExec, buffer_get_empty _ he, he, ne_eq, not_true_eq_false, if_false]
          omega
        · simp only [ringExec, buffer_get_nonempty _ he, he, ne_eq, not_false_eq_true,
            if_true]
          omega

theorem uart_send_room (tcnt1 b : Nat) (s : State) (hf : (s.tx_head + 1) % 64 ≠ s.tx_tail) :
    uart_send tcnt1 b s =
      some { s with tx_buffer := Function.update s.tx_buffer s.tx_head b
                    tx_head := (s.tx_head + 1) % 64
                    OCR1A := if s.TIMSK1_OCIE1A = true then s.OCR1A
                             else (tcnt1 + s.timer_ticks_per_bit) % 65536
                    TIMSK1_OCIE1A := true } := by
  cases ha : s.TIMSK1_OCIE1A
  · simp [uart_send, UART_BUFFER_SIZE, hf, buffer_put, State.withTx, State.txRing, ha]
  · simp [uart_send, UART_BUFFER_SIZE, hf, buffer_put, State.withTx, State.txRing, ha]

theorem uart_send_full (tcnt1 b : Nat) (s : State) (hf : (s.tx_head + 1) % 64 = s.tx_tail) :
    uart_send tcnt1 b s = none := by
  simp [uart_send, UART_BUFFER_SIZE, hf]

/-- Consecutive sends that fit in the transmit ring all return; they append the bytes
to the ring and touch nothing but the storage, `tx_head`, `OCR1A` and the arm bit. -/
theorem uart_send_all_room (l : List (Nat × Nat)) :
    ∀ s : State, s.tx_head < 64 → s.tx_tail < 64 →
      s.txRing.contents.length + l.length ≤ 63 →
      ∃ s', uart_send_all l s = some s' ∧
        s'.txRing.contents = s.txRing.contents ++ l.map Prod.snd ∧
        s'.tx_head < 64 ∧
        (l ≠ [] → s'.TIMSK1_OCIE1A = true) ∧
        s' = { s with tx_buffer := s'.tx_buffer, tx_head := s'.tx_head, OCR1A := s'.OCR1A
                      TIMSK1_OCIE1A := s'.TIMSK1_OCIE1A } := by
  induction l with
  | nil =>
    intro s hh _ _
    exact ⟨s, rfl, by simp, hh, by simp, rfl⟩
  | cons p rest ih =>
    intro s hh ht hlen
    obtain ⟨t, b⟩ := p
    have hcl : s.txRing.contents.length = (s.tx_head + 64 - s.tx_tail) % 64 :=
      Ring.contents_length _
    simp only [List.length_cons] at hlen
    have hf : (s.tx_head + 1) % 64 ≠ s.tx_tail := by omega
    have hfr : (s.txRing.head + 1) % 64 ≠ s.txRing.tail := hf
    have hput := Ring.contents_put s.txRing b hh ht hfr
    rw [buffer_put_room _ b hfr] at hput
    obtain ⟨s', h1, h2, h3, h4, h5⟩ := ih
      { s with tx_buffer := Function.update s.tx_buffer s.tx_head b
               tx_head := (s.tx_head + 1) % 64
               OCR1A := if s.TIMSK1_OCIE1A = true then s.OCR1A
                        else (t + s.timer_ticks_per_bit) % 65536
               TIMSK1_OCIE1A := true }
      (Nat.mod_lt _ (by decide)) ht
      (by
        have : ({ s with tx_buffer := Function.update s.tx_buffer s.tx_head b
                         tx_head := (s.tx_head + 1) % 64
                         OCR1A := if s.TIMSK1_OCIE1A = true then s.OCR1A
                                  else (t + s.timer_ticks_per_bit) % 65536
                         TIMSK1_OCIE1A := true } : State).txRing.contents
            = s.txRing.contents ++ [b] := hput
        rw [this]
        simp only [List.length_append, List.length_singleton]
        omega)
    refine ⟨s', ?_, ?_, h3, ?_, ?_⟩
    · simp only [uart_send_all, uart_send_room t b s hf]
      exact h1
    · rw [h2]
      have : ({ s with tx_buffer := Function.update s.tx_buffer s.tx_head b
                       tx_head := (s.tx_head + 1) % 64
                       OCR1A := if s.TIMSK1_OCIE1A = true then s.OCR1A
                                else (t + s.timer_ticks_per_bit) % 65536
                       TIMSK1_OCIE1A := true } : State).txRing.contents
          = s.txRing.contents ++ [b] := hput
      rw [this]
      simp
    · intro _
      by_cases hr : rest = []
      · subst hr
        simp only [uart_send_all, Option.some.injEq] at h1
        rw [← h1]
      · exact h4 hr
    · conv_lhs => rw [h5]

theorem uart_send_all_append (l1 l2 : List (Nat × Nat)) :
    ∀ s : State, uart_send_all (l1 ++ l2) s = (uart_send_all l1 s).bind (uart_send_all l2) := by
  induction l1 with
  | nil => intro s; rfl
  | cons p rest ih =>
    intro s
    obtain ⟨t, b⟩ := p
    simp only [List.cons_append, uart_send_all]
    cases uart_send t b s with
    | none => rfl
    | some s1 => exact ih s1

/-- C7: capacity invariant.  In every state reached from the empty ring by any sequence of
`buffer_put` / `buffer_get`, `head` and `tail` are below 64 and the number of bytes stored
and not yet handed out equals `(head - tail) mod 64` and is at most 63.  Starting from an
empty transmit ring with no consumption, 63 consecutive `uart_send` calls (and every
shorter run) return with their bytes stored in order; after them the full condition
`(tx_head + 1) mod 64 = tx_tail` holds, so the 64th call enters the busy-wait loop. -/
theorem C7_capacity (buffer : Nat → Nat) (ops : List RingOp) (s : State)
    (l : List (Nat × Nat)) (hempty : s.tx_head = s.tx_tail) (ht : s.tx_tail < 64)
    (hl : l.length = 63) :
    ((ops.foldl ringExec ({ buffer := buffer, head := 0, tail := 0 }, 0)).1.head < 64 ∧
      (ops.foldl ringExec ({ buffer := buffer, head := 0, tail := 0 }, 0)).1.tail < 64 ∧
      (ops.foldl ringExec ({ buffer := buffer, head := 0, tail := 0 }, 0)).2 =
        ((ops.foldl ringExec ({ buffer := buffer, head := 0, tail := 0 }, 0)).1.head + 64
          - (ops.foldl ringExec ({ buffer := buffer, head := 0, tail := 0 }, 0)).1.tail) % 64 ∧
      (ops.foldl ringExec ({ buffer := buffer, head := 0, tail := 0 }, 0)).2 ≤ 63) ∧
    (∀ k, k ≤ 63 → ∃ sk, uart_send_all (l.take k) s = some sk ∧
      sk.txRing.contents = (l.take k).map Prod.snd ∧ sk.tx_tail = s.tx_tail) ∧
    (∃ s', uart_send_all l s = some s' ∧ s'.txRing.contents = l.map Prod.snd ∧
      s'.tx_tail = s.tx_tail ∧ (s'.tx_head + 1) % 64 = s'.tx_tail ∧
      ∀ t b, uart_send t b s' = none ∧ uart_send_all (l ++ [(t, b)]) s = none) := by
  have hh : s.tx_head < 64 := by omega
  have hnil : s.txRing.contents = [] :=
    (Ring.contents_eq_nil_iff s.txRing hh ht).mpr hempty
  have key : ∀ l' : List (Nat × Nat), l'.length ≤ 63 →
      ∃ s', uart_send_all l' s = some s' ∧ s'.txRing.contents = l'.map Prod.snd ∧
        s'.tx_tail = s.tx_tail ∧ s'.tx_head < 64 := by
    intro l' hl'
    obtain ⟨s', h1, h2, h3, _, h5⟩ := uart_send_all_room l' s hh ht (by rw [hnil]; simpa using hl')
    refine ⟨s', h1, by rw [h2, hnil]; rfl, by rw [h5], h3⟩
  refine ⟨ringExec_inv ops _ (by simp) (by simp) (by simp), ?_, ?_⟩
  · intro k hk
    obtain ⟨sk, h1, h2, h3, _⟩ := key (l.take k) (by rw [List.length_take]; omega)
    exact ⟨sk, h1, h2, h3⟩
  · obtain ⟨s', h1, h2, h3, h4⟩ := key l (by omega)
    have hlen : s'.txRing.contents.length = 63 := by rw [h2, List.length_map, hl]
    rw [Ring.contents_length] at hlen
    have hfull : (s'.tx_head + 1) % 64 = s'.tx_tail := by
      have e1 : s'.txRing.head = s'.tx_head := rfl
      have e2 : s'.txRing.tail = s'.tx_tail := rfl
      rw [e1, e2] at hlen
      omega
    refine ⟨s', h1, h2, h3, hfull, fun t b => ⟨uart_send_full t b s' hfull, ?_⟩⟩
    rw [uart_send_all_append, h1]
    simp [uart_send_all, uart_send_full t b s' hfull]

/-- Witness for C7: 63 sends from the initial state fill the ring, the 64th spins. -/
theorem C7_capacity_witness :
    ({} : State).tx_head = ({} : State).tx_tail ∧ ({} : State).tx_tail < 64 ∧
      ((List.range 63).map (fun i => (0, i))).length = 63 ∧
      (∃ s', uart_send_all ((List.range 63).map (fun i => (0, i))) {} = some s' ∧
        s'.txRing.contents = ((List.range 63).map (fun i => (0, i))).map Prod.snd ∧
        s'.tx_tail = ({} : State).tx_tail ∧ (s'.tx_head + 1) % 64 = s'.tx_tail ∧
        ∀ t b, uart_send t b s' = none ∧
          uart_send_all ((List.range 63).map (fun i => (0, i)) ++ [(t, b)]) {} = none) :=
  ⟨rfl, by decide, by simp,
    (C7_capacity (fun _ => 0) [RingOp.put 1, RingOp.get] {}
      ((List.range 63).map (fun i => (0, i))) rfl (by decide) (by simp)).2.2⟩

/-! ## Foreground API -/

/-- C10: when the transmit ring is not full, `uart_send(b)` returns with `b` stored at the
old head position, every other cell and `tx_tail` unchanged and `tx_head` advanced by one
modulo 64.  If the compare interrupt was disarmed it is armed with
`OCR1A = (TCNT1 + ticksPerBit) mod 2^16`; if it was armed, `OCR1A` and the arm bit are
left as they were. -/
theorem C10_uart_send (tcnt1 b : Nat) (s : State)
    (hroom : (s.tx_head + 1) % 64 ≠ s.tx_tail) :
    ∃ s', uart_send tcnt1 b s = some s' ∧
      s'.tx_buffer s.tx_head = b ∧
      (∀ i, i ≠ s.tx_head → s'.tx_buffer i = s.tx_buffer i) ∧
      s'.tx_head = (s.tx_head + 1) % 64 ∧
      s'.tx_tail = s.tx_tail ∧
      (s.TIMSK1_OCIE1A = false →
        s'.TIMSK1_OCIE1A = true ∧ s'.OCR1A = (tcnt1 + s.timer_ticks_per_bit) % 65536) ∧
      (s.TIMSK1_OCIE1A = true → s'.TIMSK1_OCIE1A = true ∧ s'.OCR1A = s.OCR1A) := by
  refine ⟨_, uart_send_room tcnt1 b s hroom, by simp, ?_, rfl, rfl, ?_, ?_⟩
  · intro i hi
    simp [Function.update_noteq hi]
  · intro ha
    simp [ha]
  · intro ha
    simp [ha]

/-- Witness for C10: the first send at 9600 baud arms the compare interrupt. -/
theorem C10_uart_send_witness :
    (({} : State).tx_head + 1) % 64 ≠ ({} : State).tx_tail ∧
      ∃ s', uart_send 1000 0x41 { timer_ticks_per_bit := 208 } = some s' ∧
        s'.tx_buffer 0 = 0x41 ∧ s'.tx_head = 1 ∧ s'.TIMSK1_OCIE1A = true ∧ s'.OCR1A = 1208 := by
  obtain ⟨s', h1, h2, _, h4, _, h6, _⟩ :=
    C10_uart_send 1000 0x41 { timer_ticks_per_bit := 208 } (by decide)
  exact ⟨by decide, s', h1, h2, h4, (h6 rfl).1, (h6 rfl).2⟩

/-- The drain loop of `uart_read_string`: with the bytes `bs` held and enough fuel it
exits with the ring empty, `bs` copied to `rx_data[i ..]` and `i` advanced past them. -/
theorem uart_read_string_loop_drains (bs : List Nat) :
    ∀ (s : State) (rx_data : Nat → Nat) (i fuel : Nat),
      s.rx_head < 64 → s.rx_tail < 64 → s.rxRing.contents = bs →
      bs.length < fuel → i + bs.length < 256 →
      uart_read_string_loop fuel s rx_data i =
        some ({ s with rx_tail := s.rx_head },
              (fun j => if i ≤ j ∧ j < i + bs.length then bs.getD (j - i) 0 else rx_data j),
              i + bs.length) := by
  induction bs with
  | nil =>
    intro s rx_data i fuel hh ht hc hfuel _
    have he : s.rx_head = s.rx_tail := (Ring.contents_eq_nil_iff s.rxRing hh ht).mp hc
    have h0 : uart_available s = 0 := (uart_available_eq_zero_iff s hh ht).mpr he
    obtain ⟨f, rfl⟩ : ∃ f, fuel = f + 1 := ⟨fuel - 1, by simp at hfuel; omega⟩
    simp only [uart_read_string_loop, h0, ne_eq, not_true_eq_false, if_false,
      List.length_nil, Nat.add_zero]
    have hs : ({ s with rx_tail := s.rx_head } : State) = s := by
      clear hh ht hc h0
      cases s
      simp only at he
      subst he
      rfl
    rw [hs]
    have hd : (fun j => if i ≤ j ∧ j < i then ([] : List Nat).getD (j - i) 0 else rx_data j)
        = rx_data := by
      funext j
      have : ¬ (i ≤ j ∧ j < i) := by omega
      simp [this]
    rw [hd]
  | cons b bs ih =>
    intro s rx_data i fuel hh ht hc hfuel hi
    simp only [List.length_cons] at hfuel hi
    have hne : s.rx_head ≠ s.rx_tail := by
      intro he
      have := (Ring.contents_eq_nil_iff s.rxRing hh ht).mpr he
      rw [this] at hc
      exact List.noConfusion hc
    have hav : uart_available s ≠ 0 := fun h0 => hne ((uart_available_eq_zero_iff s hh ht).mp h0)
    have hrne : s.rxRing.head ≠ s.rxRing.tail := hne
    have hget := Ring.contents_get s.rxRing hh ht hrne
    rw [hc, buffer_get_nonempty _ hrne] at hget
    have hb : b = s.rx_buffer s.rx_tail := (List.cons.inj hget).1
    have hbs : bs = ({ s with rx_tail := (s.rx_tail + 1) % 64 } : State).rxRing.contents :=
      (List.cons.inj hget).2
    obtain ⟨f, rfl⟩ : ∃ f, fuel = f + 1 := ⟨fuel - 1, by omega⟩
    have hrd : uart_read s
        = (s.rx_buffer s.rx_tail, { s with rx_tail := (s.rx_tail + 1) % 64 }) := by
      simp only [uart_read, buffer_get_nonempty _ hrne]
      rfl
    simp only [uart_read_string_loop, hav, ne_eq, not_false_eq_true, if_true, hrd]
    have hi1 : (i + 1) % 256 = i + 1 := Nat.mod_eq_of_lt (by omega)
    rw [hi1, ih { s with rx_tail := (s.rx_tail + 1) % 64 }
      (Function.update rx_data i (s.rx_buffer s.rx_tail)) (i + 1) f hh
      (Nat.mod_lt _ (by decide)) hbs.symm (by omega) (by omega)]
    have hidx : i + 1 + bs.length = i + (bs.length + 1) := by omega
    simp only [List.length_cons, hidx, Option.some.injEq, Prod.mk.injEq, and_true, true_and]
    funext j
    by_cases hji : j = i
    · subst hji
      have h1 : ¬ (j + 1 ≤ j ∧ j < j + (bs.length + 1)) := by omega
      have h2 : j ≤ j ∧ j < j + (bs.length + 1) := by omega
      simp [h1, h2, hb]
    · by_cases hin : i + 1 ≤ j ∧ j < i + (bs.length + 1)
      · have h2 : i ≤ j ∧ j < i + (bs.length + 1) := by omega
        obtain ⟨m, hm⟩ : ∃ m, j - i = m + 1 := ⟨j - i - 1, by omega⟩
        have hm' : j - (i + 1) = m := by omega
        simp only [hin, h2, and_self, if_true, hm, hm', List.getD_cons_succ]
      · have h2 : ¬ (i ≤ j ∧ j < i + (bs.length + 1)) := by omega
        simp [hin, h2, Function.update_noteq hji]

/-- C9: let the receive ring hold the bytes `bs` (at any position of `rx_head`, `rx_tail`
inside the buffer, wrapped or not), with no interrupt in between.  If `bs` is empty,
`uart_read_string` returns `false` and leaves the caller's storage and the state as they
were.  Otherwise, given fuel for more loop tests than bytes, it returns `true`, has
written `bs` to `rx_data[0 .. k-1]`, `0` to `rx_data[k]` and nothing else (`k + 1 ≤ 64`
cells), and leaves the receive ring empty, every other variable unchanged. -/
theorem C9_uart_read_string (s : State) (rx_data : Nat → Nat) (bs : List Nat) (fuel : Nat)
    (hh : s.rx_head < 64) (ht : s.rx_tail < 64) (hc : s.rxRing.contents = bs) :
    (bs = [] → uart_read_string fuel rx_data s = some (false, rx_data, s)) ∧
      (bs ≠ [] → bs.length < fuel →
        ∃ d s', uart_read_string fuel rx_data s = some (true, d, s') ∧
          (∀ j, j < bs.length → d j = bs.getD j 0) ∧
          d bs.length = 0 ∧
          (∀ j, bs.length < j → d j = rx_data j) ∧
          bs.length + 1 ≤ 64 ∧
          s'.rx_head = s'.rx_tail ∧
          s' = { s with rx_tail := s.rx_head }) := by
  have hlen : bs.length = (s.rx_head + 64 - s.rx_tail) % 64 := by
    rw [← hc, Ring.contents_length]
    rfl
  constructor
  · intro hnil
    subst hnil
    have he : s.rx_head = s.rx_tail := (Ring.contents_eq_nil_iff s.rxRing hh ht).mp hc
    have h0 : uart_available s = 0 := (uart_available_eq_zero_iff s hh ht).mpr he
    simp [uart_read_string, h0]
  · intro hne hfuel
    have hne' : s.rx_head ≠ s.rx_tail := by
      intro he
      exact hne (hc ▸ (Ring.contents_eq_nil_iff s.rxRing hh ht).mpr he)
    have hav : uart_available s ≠ 0 := fun h0 => hne' ((uart_available_eq_zero_iff s hh ht).mp h0)
    have hloop := uart_read_string_loop_drains bs s rx_data 0 fuel hh ht hc hfuel (by omega)
    refine ⟨Function.update
        (fun j => if 0 ≤ j ∧ j < 0 + bs.length then bs.getD (j - 0) 0 else rx_data j)
        (0 + bs.length) 0,
      { s with rx_tail := s.rx_head }, ?_, ?_, ?_, ?_, by omega, rfl, rfl⟩
    · simp only [uart_read_string, hav, if_false, hloop]
    · intro j hj
      have h1 : 0 + bs.length ≠ j := by omega
      simp [Function.update_noteq h1.symm, hj]
    · rw [Nat.zero_add, Function.update_same]
    · intro j hj
      have h1 : 0 + bs.length ≠ j := by omega
      have h2 : ¬ j < bs.length := by omega
      simp [Function.update_noteq h1.symm, h2]

/-- Witness for C9: with "HI" buffered across the wrap-around the call yields "HI". -/
theorem C9_uart_read_string_witness :
    stateWrapped.rx_head < 64 ∧ stateWrapped.rx_tail < 64 ∧
      stateWrapped.rxRing.contents = [0x48, 0x49] ∧
      ∃ d s', uart_read_string 3 (fun _ => 7) stateWrapped = some (true, d, s') ∧
        d 0 = 0x48 ∧ d 1 = 0x49 ∧ d 2 = 0 ∧ d 3 = 7 ∧ s'.rx_head = s'.rx_tail := by
  obtain ⟨d, s', h1, h2, h3, h4, _, h6, _⟩ :=
    (C9_uart_read_string stateWrapped (fun _ => 7) [0x48, 0x49] 3
      (by decide) (by decide) (by decide)).2 (by decide) (by decide)
  exact ⟨by decide, by decide, by decide, d, s', h1, h2 0 (by decide), h2 1 (by decide), h3,
    h4 3 (by decide), h6⟩

/-! ## Receive engine -/

theorem COMPB_sample (level : Bool) (s : State) (h : s.rx_bit_count < 8) :
    TIMER1_COMPB level s =
      { s with OCR1B := (s.OCR1B + s.timer_ticks_per_bit) % 65536
               rx_byte := rxShift s.rx_byte level
               rx_bit_count := s.rx_bit_count + 1 } := by
  cases level <;> simp [TIMER1_COMPB, h, rxShift]

theorem COMPB_complete (level : Bool) (s : State) (h : ¬ s.rx_bit_count < 8) :
    TIMER1_COMPB level s =
      { s with OCR1B := (s.OCR1B + s.timer_ticks_per_bit) % 65536
               TIMSK1_OCIE1B := false
               rx_buffer := (buffer_put s.rxRing s.rx_byte).buffer
               rx_head := (buffer_put s.rxRing s.rx_byte).head
               rx_tail := (buffer_put s.rxRing s.rx_byte).tail
               rx_byte_count := (s.rx_byte_count + 1) % 4294967296
               EIFR_INTF0 := false
               EIMSK_INT0 := true } := by
  simp [TIMER1_COMPB, h, State.withRx, State.rxRing]

/-- Sampling events that do not take `rx_bit_count` beyond 8 only shift the levels into
the accumulator, count them and move `OCR1B`. -/
theorem rxSample_shift (levels : List Bool) :
    ∀ s : State, s.rx_bit_count + levels.length ≤ 8 →
      rxSample levels s =
        { s with OCR1B := if levels = [] then s.OCR1B
                          else (s.OCR1B + levels.length * s.timer_ticks_per_bit) % 65536
                 rx_byte := levels.foldl rxShift s.rx_byte
                 rx_bit_count := s.rx_bit_count + levels.length } := by
  induction levels with
  | nil => intro s _; rfl
  | cons l ls ih =>
    intro s hs
    simp only [List.length_cons] at hs
    have h8 : s.rx_bit_count < 8 := by omega
    show rxSample ls (TIMER1_COMPB l s) = _
    rw [COMPB_sample l s h8, ih _ (by simp only; omega)]
    simp only [List.foldl_cons, List.length_cons, State.mk.injEq, true_and, and_true]
    refine ⟨by omega, ?_⟩
    by_cases hls : ls = []
    · subst hls; simp
    · simp only [hls, if_false, reduceCtorEq]
      rw [Nat.succ_mul]
      omega

/-- C8 (counterexample): after the start edge and 8 sampling events for the byte `0x41`,
`rx_bit_count` is 8 and the accumulator holds `0x41`, but nothing has been put into the
receive ring, the sampling interrupt is still armed and the edge interrupt is still
disarmed: the engine is not back in Idle. -/
theorem C8_not_idle_after_8 :
    (rxSample [true, false, false, false, false, false, true, false]
        (INT0 0 stateIdle)).rx_bit_count = 8 ∧
      (rxSample [true, false, false, false, false, false, true, false]
        (INT0 0 stateIdle)).rx_byte = 0x41 ∧
      (rxSample [true, false, false, false, false, false, true, false]
        (INT0 0 stateIdle)).rxRing.contents = [] ∧
      (rxSample [true, false, false, false, false, false, true, false]
        (INT0 0 stateIdle)).rx_byte_count = 0 ∧
      (rxSample [true, false, false, false, false, false, true, false]
        (INT0 0 stateIdle)).TIMSK1_OCIE1B = true ∧
      (rxSample [true, false, false, false, false, false, true, false]
        (INT0 0 stateIdle)).EIMSK_INT0 = false := by
  decide

/-- C8 (amended): the 8 `TIMER1_COMPB` events after an `INT0` start edge only sample:
after them `rx_bit_count = 8`, the receive ring is untouched, the sampling interrupt is
still armed and the edge interrupt still disarmed.  The 9th `TIMER1_COMPB` event is the
one that hands the accumulated byte to `buffer_put` on the receive ring, disarms the
sampling interrupt (`OCIE1B`), clears the pending edge flag (`INTF0`) and re-arms the edge
interrupt (`INT0`): the engine is back in Idle after exactly 9 compare events. -/
theorem C8_rx_completion (s : State) (tcnt1 : Nat) (levels : List Bool) (level9 : Bool)
    (hlen : levels.length = 8) :
    (rxSample levels (INT0 tcnt1 s)).rx_bit_count = 8 ∧
      (rxSample levels (INT0 tcnt1 s)).rxRing = s.rxRing ∧
      (rxSample levels (INT0 tcnt1 s)).TIMSK1_OCIE1B = true ∧
      (rxSample levels (INT0 tcnt1 s)).EIMSK_INT0 = false ∧
      (TIMER1_COMPB level9 (rxSample levels (INT0 tcnt1 s))).rxRing =
        buffer_put s.rxRing (rxSample levels (INT0 tcnt1 s)).rx_byte ∧
      (TIMER1_COMPB level9 (rxSample levels (INT0 tcnt1 s))).rx_byte =
        (rxSample levels (INT0 tcnt1 s)).rx_byte ∧
      (TIMER1_COMPB level9 (rxSample levels (INT0 tcnt1 s))).TIMSK1_OCIE1B = false ∧
      (TIMER1_COMPB level9 (rxSample levels (INT0 tcnt1 s))).EIFR_INTF0 = false ∧
      (TIMER1_COMPB level9 (rxSample levels (INT0 tcnt1 s))).EIMSK_INT0 = true := by
  have h8 : rxSample levels (INT0 tcnt1 s) = _ :=
    rxSample_shift levels (INT0 tcnt1 s) (by simp [INT0, hlen])
  have hc : ¬ (rxSample levels (INT0 tcnt1 s)).rx_bit_count < 8 := by
    rw [h8]; simp [INT0, hlen]
  rw [COMPB_complete level9 _ hc]
  refine ⟨?_, ?_, ?_, ?_, ?_, rfl, rfl, rfl, rfl⟩
  · rw [h8]; simp [INT0, hlen]
  · rw [h8]; rfl
  · rw [h8]; rfl
  · rw [h8]; rfl
  · have hr : (rxSample levels (INT0 tcnt1 s)).rxRing = s.rxRing := by rw [h8]; rfl
    simp only [State.rxRing] at hr ⊢
    rw [hr]

/-- Witness for C8: the levels of `0x41`; the byte is stored by the 9th event. -/
theorem C8_rx_completion_witness :
    [true, false, false, false, false, false, true, false].length = 8 ∧
      (rxSample [true, false, false, false, false, false, true, false]
        (INT0 0 stateIdle)).rx_bit_count = 8 ∧
      (TIMER1_COMPB true (rxSample [true, false, false, false, false, false, true, false]
        (INT0 0 stateIdle))).rxRing.contents = [0x41] ∧
      (TIMER1_COMPB true (rxSample [true, false, false, false, false, false, true, false]
        (INT0 0 stateIdle))).TIMSK1_OCIE1B = false ∧
      (TIMER1_COMPB true (rxSample [true, false, false, false, false, false, true, false]
        (INT0 0 stateIdle))).EIMSK_INT0 = true := by
  have h := C8_rx_completion stateIdle 0 [true, false, false, false, false, false, true, false]
    true rfl
  refine ⟨rfl, h.1, ?_, h.2.2.2.2.2.2.1, h.2.2.2.2.2.2.2.2⟩
  rw [h.2.2.2.2.1]
  decide

/-! ## Loop-back -/

set_option maxRecDepth 1000000 in
/-- Sampling the eight data bits of a byte LSB first rebuilds the byte. -/
theorem rxPartial_eight : ∀ b, b < 256 → rxPartial b 8 = b := by
  decide

theorem loop_start (b : Nat) (txs rxs : List Nat) (s : State) (t : Nat)
    (h : LoopIdle (b :: txs) rxs s) : LoopFrame 1 b txs rxs (loopbackTick s t) := by
  obtain ⟨h0, hpin, hint, _, hocb, hth, htt, hrh, hrt, htx, hrx, harm⟩ := h
  have ha : s.TIMSK1_OCIE1A = true := harm (by simp)
  have hne : s.tx_head ≠ s.tx_tail := by
    intro he
    have := (Ring.contents_eq_nil_iff s.txRing hth htt).mpr he
    rw [this] at htx
    exact List.noConfusion htx
  have hget := Ring.contents_get s.txRing hth htt hne
  rw [htx, buffer_get_nonempty _ hne] at hget
  have hb : b = s.tx_buffer s.tx_tail := (List.cons.inj hget).1
  have htxs : txs = ({ s.txRing with tail := (s.tx_tail + 1) % 64 } : Ring).contents :=
    (List.cons.inj hget).2
  have hA := COMPA_fetch s h0 hne
  have hp : (TIMER1_COMPA s).PORTD_PD3 = false := by rw [hA]
  have hi : (TIMER1_COMPA s).EIMSK_INT0 = true := by rw [hA]; exact hint
  have e : loopbackTick s t
      = INT0 t { (TIMER1_COMPA s) with EIFR_INTF0 := false } := by
    simp only [loopbackTick, ha, if_true, hp, hpin, hi, Bool.not_false, Bool.and_self]
  rw [e, hA]
  refine ⟨rfl, ?_, ha, rfl, rfl, rfl, rfl, hth, Nat.mod_lt _ (by decide), hrh, hrt,
    htxs.symm, hrx⟩
  show frameAfterStart (s.tx_buffer s.tx_tail) = frameAfterStart b >>> (1 - 1)
  rw [hb]
  rfl

/-- While a frame is in flight a bit period is one transmit compare event followed by
one sampling event that reads the level just driven; the edge flag may get latched in
between. -/
theorem loopbackTick_framing (s : State) (t : Nat) (hpos : 0 < s.tx_bit_count)
    (ha : s.TIMSK1_OCIE1A = true) (hint : s.EIMSK_INT0 = false)
    (hocb : s.TIMSK1_OCIE1B = true) :
    ∃ f, loopbackTick s t =
      TIMER1_COMPB (s.tx_shift_register.testBit 0) { (TIMER1_COMPA s) with EIFR_INTF0 := f } := by
  have hA := COMPA_shift s hpos
  have h1 : (TIMER1_COMPA s).EIMSK_INT0 = false := by rw [hA]; exact hint
  have h2 : (TIMER1_COMPA s).TIMSK1_OCIE1B = true := by rw [hA]; exact hocb
  have h3 : (TIMER1_COMPA s).PORTD_PD3 = s.tx_shift_register.testBit 0 := by rw [hA]
  by_cases hedge : (s.PORTD_PD3 && !s.tx_shift_register.testBit 0) = true
  · refine ⟨true, ?_⟩
    simp only [loopbackTick, ha, if_true, h1, h2, h3, hedge, Bool.false_and,
      Bool.false_eq_true, if_false]
  · refine ⟨(TIMER1_COMPA s).EIFR_INTF0, ?_⟩
    have e : loopbackTick s t
        = TIMER1_COMPB (s.tx_shift_register.testBit 0) (TIMER1_COMPA s) := by
      simp only [loopbackTick, ha, if_true, h1, h2, h3, hedge, Bool.false_and,
        Bool.false_eq_true, if_false]
    exact e

theorem loop_data (k b : Nat) (txs rxs : List Nat) (s : State) (t : Nat)
    (hk1 : 1 ≤ k) (hk8 : k ≤ 8) (hb : b < 256)
    (h : LoopFrame k b txs rxs s) : LoopFrame (k + 1) b txs rxs (loopbackTick s t) := by
  obtain ⟨hcnt, hsr, ha, hint, hocb, hrc, hrb, hth, htt, hrh, hrt, htx, hrx⟩ := h
  have hpos : 0 < s.tx_bit_count := by omega
  have hbit : s.tx_shift_register.testBit 0 = b.testBit (k - 1) := by
    rw [hsr, Nat.testBit_shiftRight, Nat.add_zero]
    exact (frameAfterStart_bits b hb).1 (k - 1) (by omega)
  have hlt : s.rx_bit_count < 8 := by omega
  have hA := COMPA_shift s hpos
  obtain ⟨f, hf⟩ := loopbackTick_framing s t hpos ha hint hocb
  have hB := COMPB_sample (s.tx_shift_register.testBit 0)
    { (TIMER1_COMPA s) with EIFR_INTF0 := f }
    (by show (TIMER1_COMPA s).rx_bit_count < 8; rw [hA]; exact hlt)
  rw [hf, hB, hA]
  obtain ⟨m, rfl⟩ : ∃ m, k = m + 1 := ⟨k - 1, by omega⟩
  simp only [Nat.add_sub_cancel] at *
  refine ⟨?_, ?_, ha, hint, hocb, ?_, ?_, hth, htt, hrh, hrt, htx, hrx⟩
  · show s.tx_bit_count - 1 = 10 - (m + 1 + 1)
    omega
  · show s.tx_shift_register >>> 1 = frameAfterStart b >>> (m + 1)
    rw [hsr, Nat.shiftRight_add]
  · show s.rx_bit_count + 1 = m + 1
    rw [hrc]
  · show rxShift s.rx_byte (s.tx_shift_register.testBit 0) = rxPartial b (m + 1)
    rw [hrb, hbit]
    rfl

theorem loop_stop (b : Nat) (txs rxs : List Nat) (s : State) (t : Nat)
    (hb : b < 256) (hroom : rxs.length < 63)
    (h : LoopFrame 9 b txs rxs s) : LoopIdle txs (rxs ++ [b]) (loopbackTick s t) := by
  obtain ⟨hcnt, hsr, ha, hint, hocb, hrc, hrb, hth, htt, hrh, hrt, htx, hrx⟩ := h
  have hpos : 0 < s.tx_bit_count := by omega
  have hbit : s.tx_shift_register.testBit 0 = true := by
    rw [hsr, Nat.testBit_shiftRight, Nat.add_zero]
    exact (frameAfterStart_bits b hb).2
  have hge : ¬ s.rx_bit_count < 8 := by omega
  have hbyte : s.rx_byte = b := by rw [hrb]; exact rxPartial_eight b hb
  have hlen : rxs.length = (s.rx_head + 64 - s.rx_tail) % 64 := by
    rw [← hrx, Ring.contents_length]; rfl
  have hnf : (s.rxRing.head + 1) % 64 ≠ s.rxRing.tail := by
    show (s.rx_head + 1) % 64 ≠ s.rx_tail
    omega
  have hput := Ring.contents_put s.rxRing b hrh hrt hnf
  have hA := COMPA_shift s hpos
  obtain ⟨f, hf⟩ := loopbackTick_framing s t hpos ha hint hocb
  have hB := COMPB_complete (s.tx_shift_register.testBit 0)
    { (TIMER1_COMPA s) with EIFR_INTF0 := f }
    (by show ¬ (TIMER1_COMPA s).rx_bit_count < 8; rw [hA]; exact hge)
  rw [hf, hB, hA]
  refine ⟨?_, hbit, rfl, rfl, rfl, hth, htt, ?_, ?_, htx, ?_, fun _ => ha⟩
  · show s.tx_bit_count - 1 = 0
    omega
  · show (buffer_put s.rxRing s.rx_byte).head < 64
    rw [buffer_put_room _ _ hnf]; exact Nat.mod_lt _ (by decide)
  · show (buffer_put s.rxRing s.rx_byte).tail < 64
    rw [buffer_put_room _ _ hnf]; exact hrt
  · show (buffer_put s.rxRing s.rx_byte).contents = rxs ++ [b]
    rw [hbyte, hput, hrx]

theorem loop_rest (rxs : List Nat) (s : State) (t : Nat)
    (h : LoopIdle [] rxs s) : LoopIdle [] rxs (loopbackTick s t) := by
  obtain ⟨h0, hpin, hint, hflag, hocb, hth, htt, hrh, hrt, htx, hrx, _⟩ := h
  have he : s.tx_head = s.tx_tail := (Ring.contents_eq_nil_iff s.txRing hth htt).mp htx
  cases ha : s.TIMSK1_OCIE1A
  · have e : loopbackTick s t = s := by
      simp only [loopbackTick, ha, Bool.false_eq_true, if_false, hpin, Bool.not_true,
        Bool.and_false, Bool.false_and, hocb, hflag]
    rw [e]
    exact ⟨h0, hpin, hint, hflag, hocb, hth, htt, hrh, hrt, htx, hrx,
      fun hne => absurd rfl hne⟩
  · have hc : TIMER1_COMPA s =
        { s with OCR1A := (s.OCR1A + s.timer_ticks_per_bit) % 65536
                 TIMSK1_OCIE1A := false, PORTD_PD3 := true } := by
      simp [TIMER1_COMPA, h0, he]
    have hp : (TIMER1_COMPA s).PORTD_PD3 = true := by rw [hc]
    have hb : (TIMER1_COMPA s).TIMSK1_OCIE1B = false := by rw [hc]; exact hocb
    have hfl : (TIMER1_COMPA s).EIFR_INTF0 = false := by rw [hc]; exact hflag
    have e : loopbackTick s t = TIMER1_COMPA s := by
      simp only [loopbackTick, ha, if_true, hp, hb, hfl, Bool.not_true, Bool.and_false,
        Bool.false_and, Bool.false_eq_true, if_false]
    rw [e, hc]
    exact ⟨h0, rfl, hint, hflag, hocb, hth, htt, hrh, hrt, htx, hrx,
      fun hne => absurd rfl hne⟩

theorem loopbackRun_append (a b : List Nat) (s : State) :
    loopbackRun (a ++ b) s = loopbackRun b (loopbackRun a s) := by
  simp [loopbackRun, List.foldl_append]

/-- Ten bit periods move one byte from the transmit ring to the receive ring. -/
theorem loop_byte (b : Nat) (txs rxs : List Nat) (s : State) (ticks : List Nat)
    (hb : b < 256) (hroom : rxs.length < 63) (hticks : ticks.length = 10)
    (h : LoopIdle (b :: txs) rxs s) : LoopIdle txs (rxs ++ [b]) (loopbackRun ticks s) := by
  match ticks, hticks with
  | [t1, t2, t3, t4, t5, t6, t7, t8, t9, t10], _ =>
    have h1 := loop_start b txs rxs s t1 h
    have h2 := loop_data 1 b txs rxs _ t2 (by omega) (by omega) hb h1
    have h3 := loop_data 2 b txs rxs _ t3 (by omega) (by omega) hb h2
    have h4 := loop_data 3 b txs rxs _ t4 (by omega) (by omega) hb h3
    have h5 := loop_data 4 b txs rxs _ t5 (by omega) (by omega) hb h4
    have h6 := loop_data 5 b txs rxs _ t6 (by omega) (by omega) hb h5
    have h7 := loop_data 6 b txs rxs _ t7 (by omega) (by omega) hb h6
    have h8 := loop_data 7 b txs rxs _ t8 (by omega) (by omega) hb h7
    have h9 := loop_data 8 b txs rxs _ t9 (by omega) (by omega) hb h8
    exact loop_stop b txs rxs _ t10 hb hroom h9

theorem loop_rest_run (rxs : List Nat) (ticks : List Nat) :
    ∀ s : State, LoopIdle [] rxs s → LoopIdle [] rxs (loopbackRun ticks s) := by
  induction ticks with
  | nil => intro s h; exact h
  | cons t ts ih => intro s h; exact ih _ (loop_rest rxs s t h)

/-- Enough bit periods move every queued byte to the receive ring, in order. -/
theorem loop_all (txs : List Nat) :
    ∀ (rxs : List Nat) (s : State) (ticks : List Nat),
      (∀ b ∈ txs, b < 256) → rxs.length + txs.length ≤ 63 → 10 * txs.length ≤ ticks.length →
      LoopIdle txs rxs s → LoopIdle [] (rxs ++ txs) (loopbackRun ticks s) := by
  induction txs with
  | nil =>
    intro rxs s ticks _ _ _ h
    rw [List.append_nil]
    exact loop_rest_run rxs ticks s h
  | cons b txs ih =>
    intro rxs s ticks hbytes hroom hticks h
    simp only [List.length_cons] at hroom hticks
    have hsplit : ticks = ticks.take 10 ++ ticks.drop 10 := (List.take_append_drop 10 ticks).symm
    have htake : (ticks.take 10).length = 10 := by rw [List.length_take]; omega
    have hdrop : 10 * txs.length ≤ (ticks.drop 10).length := by rw [List.length_drop]; omega
    rw [hsplit, loopbackRun_append]
    have h1 := loop_byte b txs rxs s (ticks.take 10) (hbytes b (by simp)) (by omega) htake h
    have h2 := ih (rxs ++ [b]) _ (ticks.drop 10) (fun x hx => hbytes x (by simp [hx]))
      (by simp only [List.length_append, List.length_singleton]; omega) hdrop h1
    simpa using h2

/-- Draining a receive ring that holds `bs` returns `bs`. -/
theorem uart_drain_contents (bs : List Nat) :
    ∀ (s : State) (fuel : Nat), s.rx_head < 64 → s.rx_tail < 64 → s.rxRing.contents = bs →
      bs.length < fuel → uart_drain fuel s = some bs := by
  induction bs with
  | nil =>
    intro s fuel hh ht hc hfuel
    have he : s.rx_head = s.rx_tail := (Ring.contents_eq_nil_iff s.rxRing hh ht).mp hc
    have h0 : uart_available s = 0 := (uart_available_eq_zero_iff s hh ht).mpr he
    obtain ⟨f, rfl⟩ : ∃ f, fuel = f + 1 := ⟨fuel - 1, by simp at hfuel; omega⟩
    simp [uart_drain, h0]
  | cons b bs ih =>
    intro s fuel hh ht hc hfuel
    simp only [List.length_cons] at hfuel
    have hne : s.rx_head ≠ s.rx_tail := by
      intro he
      have := (Ring.contents_eq_nil_iff s.rxRing hh ht).mpr he
      rw [this] at hc
      exact List.noConfusion hc
    have hav : uart_available s ≠ 0 := fun h0 => hne ((uart_available_eq_zero_iff s hh ht).mp h0)
    have hrne : s.rxRing.head ≠ s.rxRing.tail := hne
    have hget := Ring.contents_get s.rxRing hh ht hrne
    rw [hc, buffer_get_nonempty _ hrne] at hget
    have hb : b = s.rx_buffer s.rx_tail := (List.cons.inj hget).1
    have hbs : bs = ({ s with rx_tail := (s.rx_tail + 1) % 64 } : State).rxRing.contents :=
      (List.cons.inj hget).2
    obtain ⟨f, rfl⟩ : ∃ f, fuel = f + 1 := ⟨fuel - 1, by omega⟩
    have hrd : uart_read s
        = (s.rx_buffer s.rx_tail, { s with rx_tail := (s.rx_tail + 1) % 64 }) := by
      simp only [uart_read, buffer_get_nonempty _ hrne]
      rfl
    simp only [uart_drain, hav, ne_eq, not_false_eq_true, if_true, hrd]
    rw [ih { s with rx_tail := (s.rx_tail + 1) % 64 } f hh (Nat.mod_lt _ (by decide)) hbs.symm
      (by omega)]
    simp [hb]

/-- C2: loop-back round trip.  Start with both engines at rest on a high line, no edge
pending and both rings empty.  Enqueue fewer than 64 bytes with `uart_send`, then let the wiring run for at
least ten bit periods per byte: each byte is framed by `TIMER1_COMPA`, the falling edge of
its start bit raises `INT0` and `TIMER1_COMPB` samples the levels the transmitter drives.
Every send returns, the transmit ring ends empty, and draining the receive buffer with
`uart_read` yields exactly the bytes sent, in the same order. -/
theorem C2_loopback (s0 : State) (l : List (Nat × Nat)) (ticks : List Nat) (fuel : Nat)
    (h0 : s0.tx_bit_count = 0) (hpin : s0.PORTD_PD3 = true) (hint : s0.EIMSK_INT0 = true)
    (hflag : s0.EIFR_INTF0 = false) (hocb : s0.TIMSK1_OCIE1B = false)
    (htx : s0.tx_head = s0.tx_tail) (htt : s0.tx_tail < 64)
    (hrx : s0.rx_head = s0.rx_tail) (hrt : s0.rx_tail < 64)
    (hlen : l.length < 64) (hbytes : ∀ p ∈ l, p.2 < 256)
    (hticks : 10 * l.length ≤ ticks.length) (hfuel : l.length < fuel) :
    ∃ s1, uart_send_all l s0 = some s1 ∧
      (loopbackRun ticks s1).txRing.contents = [] ∧
      uart_drain fuel (loopbackRun ticks s1) = some (l.map Prod.snd) := by
  have hth : s0.tx_head < 64 := by omega
  have hrh : s0.rx_head < 64 := by omega
  have htnil : s0.txRing.contents = [] := (Ring.contents_eq_nil_iff s0.txRing hth htt).mpr htx
  have hrnil : s0.rxRing.contents = [] := (Ring.contents_eq_nil_iff s0.rxRing hrh hrt).mpr hrx
  obtain ⟨s1, h1, h2, h3, h4, h5⟩ :=
    uart_send_all_room l s0 hth htt (by rw [htnil]; simp only [List.length_nil]; omega)
  rw [htnil, List.nil_append] at h2
  have hidle : LoopIdle (l.map Prod.snd) [] s1 := by
    refine ⟨?_, ?_, ?_, ?_, ?_, h3, ?_, ?_, ?_, h2, ?_, ?_⟩
    · rw [h5]; exact h0
    · rw [h5]; exact hpin
    · rw [h5]; exact hint
    · rw [h5]; exact hflag
    · rw [h5]; exact hocb
    · rw [h5]; exact htt
    · rw [h5]; exact hrh
    · rw [h5]; exact hrt
    · rw [h5]; exact hrnil
    · intro hne
      exact h4 (fun hl => hne (by rw [hl]; rfl))
  have hfin := loop_all (l.map Prod.snd) [] s1 ticks
    (by
      intro b hb
      obtain ⟨p, hp, rfl⟩ := List.mem_map.mp hb
      exact hbytes p hp)
    (by simp only [List.length_nil, List.length_map]; omega)
    (by simpa using hticks) hidle
  rw [List.nil_append] at hfin
  obtain ⟨_, _, _, _, _, _, _, hrh', hrt', htx', hrx', _⟩ := hfin
  exact ⟨s1, h1, htx', uart_drain_contents _ _ fuel hrh' hrt' hrx' (by simpa using hfuel)⟩

/-- Witness for C2: "HI" sent and read back over the loop-back wiring. -/
theorem C2_loopback_witness :
    stateIdle.tx_bit_count = 0 ∧ stateIdle.PORTD_PD3 = true ∧ stateIdle.EIMSK_INT0 = true ∧
      stateIdle.EIFR_INTF0 = false ∧
      stateIdle.TIMSK1_OCIE1B = false ∧ stateIdle.tx_head = stateIdle.tx_tail ∧
      stateIdle.rx_head = stateIdle.rx_tail ∧
      ∃ s1, uart_send_all [(1000, 0x48), (1100, 0x49)] stateIdle = some s1 ∧
        (loopbackRun (List.replicate 21 0) s1).txRing.contents = [] ∧
        uart_drain 3 (loopbackRun (List.replicate 21 0) s1) = some [0x48, 0x49] :=
  ⟨rfl, rfl, rfl, rfl, rfl, rfl, rfl,
    C2_loopback stateIdle [(1000, 0x48), (1100, 0x49)] (List.replicate 21 0) 3
      rfl rfl rfl rfl rfl rfl (by decide) rfl (by decide) (by decide) (by decide) (by decide)
      (by decide)⟩

/-! ## Transmit engine: idle event and scheduling -/

theorem COMPA_idle (s : State) (h0 : s.tx_bit_count = 0) (he : s.tx_head = s.tx_tail) :
    TIMER1_COMPA s =
      { s with OCR1A := (s.OCR1A + s.timer_ticks_per_bit) % 65536
               TIMSK1_OCIE1A := false
               PORTD_PD3 := true } := by
  simp [TIMER1_COMPA, h0, he]

/-- C16: with `tx_bit_count = 0` and an empty transmit ring a `TIMER1_COMPA` event clears
`OCIE1A`, drives the output pin high and leaves `tx_head`, `tx_tail`, the stored bytes,
`tx_bit_count` and `tx_byte_count` unchanged. -/
theorem C16_tx_idle_event (s : State) (h0 : s.tx_bit_count = 0) (he : s.tx_head = s.tx_tail) :
    (TIMER1_COMPA s).TIMSK1_OCIE1A = false ∧ (TIMER1_COMPA s).PORTD_PD3 = true ∧
      (TIMER1_COMPA s).tx_head = s.tx_head ∧ (TIMER1_COMPA s).tx_tail = s.tx_tail ∧
      (TIMER1_COMPA s).tx_buffer = s.tx_buffer ∧
      (TIMER1_COMPA s).tx_bit_count = s.tx_bit_count ∧
      (TIMER1_COMPA s).tx_byte_count = s.tx_byte_count := by
  rw [COMPA_idle s h0 he]
  exact ⟨rfl, rfl, rfl, rfl, rfl, rfl, rfl⟩

/-- Witness for C16: the armed but drained transmitter `{ stateIdle with armed }`. -/
theorem C16_tx_idle_event_witness :
    stateIdle.tx_bit_count = 0 ∧ stateIdle.tx_head = stateIdle.tx_tail ∧
      (TIMER1_COMPA { stateIdle with TIMSK1_OCIE1A := true, PORTD_PD3 := false }).TIMSK1_OCIE1A
        = false ∧
      (TIMER1_COMPA { stateIdle with TIMSK1_OCIE1A := true, PORTD_PD3 := false }).PORTD_PD3
        = true :=
  have h := C16_tx_idle_event { stateIdle with TIMSK1_OCIE1A := true, PORTD_PD3 := false }
    rfl rfl
  ⟨rfl, rfl, h.1, h.2.1⟩

theorem COMPA_OCR1A (s : State) :
    (TIMER1_COMPA s).OCR1A = (s.OCR1A + s.timer_ticks_per_bit) % 65536 ∧
      (TIMER1_COMPA s).timer_ticks_per_bit = s.timer_ticks_per_bit := by
  by_cases hpos : 0 < s.tx_bit_count
  · rw [COMPA_shift s hpos]; exact ⟨rfl, rfl⟩
  · have h0 : s.tx_bit_count = 0 := by omega
    by_cases he : s.tx_head = s.tx_tail
    · rw [COMPA_idle s h0 he]; exact ⟨rfl, rfl⟩
    · rw [COMPA_fetch s h0 he]; exact ⟨rfl, rfl⟩

theorem COMPA_iter_OCR1A (n : Nat) (s : State) :
    (TIMER1_COMPA^[n] s).OCR1A % 65536 = (s.OCR1A + n * s.timer_ticks_per_bit) % 65536 ∧
      (TIMER1_COMPA^[n] s).timer_ticks_per_bit = s.timer_ticks_per_bit := by
  induction n with
  | zero => simp
  | succ n ih =>
    rw [Function.iterate_succ_apply']
    obtain ⟨h1, h2⟩ := COMPA_OCR1A (TIMER1_COMPA^[n] s)
    refine ⟨?_, by rw [h2, ih.2]⟩
    rw [h1, ih.2, Nat.succ_mul]
    omega

theorem COMPA_iter_succ_OCR1A (n : Nat) (x : State) :
    (TIMER1_COMPA^[n + 1] x).OCR1A = (x.OCR1A + (n + 1) * x.timer_ticks_per_bit) % 65536 := by
  rw [Function.iterate_succ_apply', (COMPA_OCR1A _).1]
  obtain ⟨h1, h2⟩ := COMPA_iter_OCR1A n x
  rw [h2, Nat.succ_mul]
  omega

/-- C17: drift-free transmit scheduling.  Every `TIMER1_COMPA` event sets `OCR1A` to
`(OCR1A + ticksPerBit) mod 2^16`; the handler does not read `TCNT1`.  After a kick
(`uart_send` on an idle transmitter) that read the counter value `t`, `OCR1A` is
`(t + ticksPerBit) mod 2^16`, and the `n`-th compare event after it leaves
`OCR1A = (t + (n + 1) * ticksPerBit) mod 2^16`. -/
theorem C17_tx_schedule (s : State) (t b : Nat) (hidle : s.TIMSK1_OCIE1A = false)
    (hroom : (s.tx_head + 1) % 64 ≠ s.tx_tail) :
    (∀ x : State, (TIMER1_COMPA x).OCR1A = (x.OCR1A + x.timer_ticks_per_bit) % 65536) ∧
      ∃ s1, uart_send t b s = some s1 ∧
        s1.OCR1A = (t + s.timer_ticks_per_bit) % 65536 ∧
        ∀ n, (TIMER1_COMPA^[n] s1).OCR1A = (t + (n + 1) * s.timer_ticks_per_bit) % 65536 := by
  refine ⟨fun x => (COMPA_OCR1A x).1, ?_⟩
  obtain ⟨s1, hs1⟩ : ∃ s1, uart_send t b s = some s1 := ⟨_, uart_send_room t b s hroom⟩
  have hform := uart_send_room t b s hroom
  rw [hs1, Option.some.injEq] at hform
  have ho : s1.OCR1A = (t + s.timer_ticks_per_bit) % 65536 := by
    rw [hform]; simp [hidle]
  have ht : s1.timer_ticks_per_bit = s.timer_ticks_per_bit := by rw [hform]
  refine ⟨s1, hs1, ho, ?_⟩
  intro n
  cases n with
  | zero =>
    rw [Function.iterate_zero_apply, ho]
    simp
  | succ n =>
    rw [COMPA_iter_succ_OCR1A n s1, ho, ht]
    have e : (n + 1 + 1) * s.timer_ticks_per_bit
        = (n + 1) * s.timer_ticks_per_bit + s.timer_ticks_per_bit := Nat.succ_mul _ _
    rw [e]
    generalize (n + 1) * s.timer_ticks_per_bit = m
    omega

/-- Witness for C17: a kick at counter value 1000 at 9600 baud; the third event. -/
theorem C17_tx_schedule_witness :
    stateIdle.TIMSK1_OCIE1A = false ∧ (stateIdle.tx_head + 1) % 64 ≠ stateIdle.tx_tail ∧
      ∃ s1, uart_send 1000 0x41 stateIdle = some s1 ∧ s1.OCR1A = 1208 ∧
        (TIMER1_COMPA^[3] s1).OCR1A = 1832 := by
  obtain ⟨s1, h1, h2, h3⟩ := (C17_tx_schedule stateIdle 1000 0x41 rfl (by decide)).2
  exact ⟨rfl, by decide, s1, h1, h2, h3 3⟩

/-! ## Receive engine: scheduling, accumulator, completion -/

theorem COMPB_OCR1B (level : Bool) (s : State) :
    (TIMER1_COMPB level s).OCR1B = (s.OCR1B + s.timer_ticks_per_bit) % 65536 ∧
      (TIMER1_COMPB level s).timer_ticks_per_bit = s.timer_ticks_per_bit := by
  by_cases h : s.rx_bit_count < 8
  · rw [COMPB_sample level s h]; exact ⟨rfl, rfl⟩
  · rw [COMPB_complete level s h]; exact ⟨rfl, rfl⟩

theorem rxSample_OCR1B (levels : List Bool) :
    ∀ s : State,
      (rxSample levels s).OCR1B % 65536
          = (s.OCR1B + levels.length * s.timer_ticks_per_bit) % 65536 ∧
        (rxSample levels s).timer_ticks_per_bit = s.timer_ticks_per_bit ∧
        (s.OCR1B < 65536 → (rxSample levels s).OCR1B < 65536) := by
  induction levels with
  | nil => intro s; simp [rxSample]
  | cons l ls ih =>
    intro s
    obtain ⟨h1, h2⟩ := COMPB_OCR1B l s
    obtain ⟨i1, i2, i3⟩ := ih (TIMER1_COMPB l s)
    have e : rxSample (l :: ls) s = rxSample ls (TIMER1_COMPB l s) := rfl
    rw [e]
    refine ⟨?_, by rw [i2, h2], fun _ => i3 (by rw [h1]; exact Nat.mod_lt _ (by decide))⟩
    rw [i1, h1, h2, List.length_cons, Nat.succ_mul]
    generalize ls.length * s.timer_ticks_per_bit = m
    omega

/-- C13: receive sample schedule.  `INT0` sets `OCR1B` to
`(t + ticksPerBit + ticksPerBit / 2) mod 2^16` for the counter value `t` it reads, every
`TIMER1_COMPB` event sets `OCR1B` to `(OCR1B + ticksPerBit) mod 2^16` without reading the
counter, so after the start edge and `k - 1` compare events (the list `levels`) the next,
`k`-th, sample is scheduled at `(t + (3 * ticksPerBit) / 2 + (k - 1) * ticksPerBit)
mod 2^16`. -/
theorem C13_rx_schedule (s : State) (t : Nat) (levels : List Bool) :
    (INT0 t s).OCR1B = (t + s.timer_ticks_per_bit + s.timer_ticks_per_bit / 2) % 65536 ∧
      (∀ (level : Bool) (x : State),
        (TIMER1_COMPB level x).OCR1B = (x.OCR1B + x.timer_ticks_per_bit) % 65536) ∧
      (rxSample levels (INT0 t s)).OCR1B =
        (t + (3 * s.timer_ticks_per_bit) / 2 + levels.length * s.timer_ticks_per_bit)
          % 65536 := by
  have h0 : (INT0 t s).OCR1B
      = (t + s.timer_ticks_per_bit + s.timer_ticks_per_bit / 2) % 65536 := rfl
  have ht : (INT0 t s).timer_ticks_per_bit = s.timer_ticks_per_bit := rfl
  refine ⟨h0, fun level x => (COMPB_OCR1B level x).1, ?_⟩
  obtain ⟨h1, _, h3⟩ := rxSample_OCR1B levels (INT0 t s)
  have hlt := h3 (by rw [h0]; exact Nat.mod_lt _ (by decide))
  rw [← Nat.mod_eq_of_lt hlt, h1, h0, ht]
  generalize levels.length * s.timer_ticks_per_bit = m
  have e : 3 * s.timer_ticks_per_bit / 2
      = s.timer_ticks_per_bit + s.timer_ticks_per_bit / 2 := by omega
  rw [e]
  omega

/-- The accumulator after eight samples, as a sum of powers of two. -/
theorem rxShift_eight (l0 l1 l2 l3 l4 l5 l6 l7 : Bool) :
    [l0, l1, l2, l3, l4, l5, l6, l7].foldl rxShift 0 =
      l0.toNat * 1 + l1.toNat * 2 + l2.toNat * 4 + l3.toNat * 8 + l4.toNat * 16
        + l5.toNat * 32 + l6.toNat * 64 + l7.toNat * 128 := by
  cases l0 <;> cases l1 <;> cases l2 <;> cases l3 <;> cases l4 <;> cases l5 <;> cases l6 <;>
    cases l7 <;> rfl

/-- C15: whatever `rx_byte` and `rx_bit_count` were before, after an `INT0` start edge
and 8 `TIMER1_COMPB` events that read the levels `l0 .. l7` in this order, `rx_byte` is
the sum of `l_i * 2^i` (first sample bit 0, last sample bit 7) and `rx_bit_count` is 8. -/
theorem C15_rx_accumulator (s : State) (t : Nat) (l0 l1 l2 l3 l4 l5 l6 l7 : Bool) :
    (rxSample [l0, l1, l2, l3, l4, l5, l6, l7] (INT0 t s)).rx_byte =
        l0.toNat * 2 ^ 0 + l1.toNat * 2 ^ 1 + l2.toNat * 2 ^ 2 + l3.toNat * 2 ^ 3
          + l4.toNat * 2 ^ 4 + l5.toNat * 2 ^ 5 + l6.toNat * 2 ^ 6 + l7.toNat * 2 ^ 7 ∧
      (rxSample [l0, l1, l2, l3, l4, l5, l6, l7] (INT0 t s)).rx_bit_count = 8 := by
  rw [rxSample_shift _ (INT0 t s) (by simp [INT0])]
  refine ⟨?_, rfl⟩
  show [l0, l1, l2, l3, l4, l5, l6, l7].foldl rxShift 0 = _
  rw [rxShift_eight]
  norm_num

/-- C12 (counterexample): with `rx_byte_count` at `2^32 - 1` the completion branch wraps
the counter to 0; it does not increase by 1. -/
theorem C12_count_wraps :
    ¬ stateCountMax.rx_bit_count < 8 ∧
      (TIMER1_COMPB true stateCountMax).rx_byte_count = 0 ∧
      (TIMER1_COMPB true stateCountMax).rx_byte_count ≠ stateCountMax.rx_byte_count + 1 := by
  decide

/-- C12 (amended): when the completion branch of `TIMER1_COMPB` runs (`rx_bit_count` is
not below 8) the sampling interrupt is disarmed, the edge interrupt re-armed and
`rx_byte_count` becomes `(rx_byte_count + 1) mod 2^32`, which is `rx_byte_count + 1`
unless the counter was `2^32 - 1`.  This holds when the receive ring is full
(`(rx_head + 1) mod 64 = rx_tail`): then the byte is dropped, `rx_head`, `rx_tail` and
the storage are unchanged.  It also holds when the ring is not full: then the byte is
written at `rx_head` and `rx_head` advances, nothing else in the ring changes. -/
theorem C12_rx_completion_counts (level : Bool) (s : State) (hdone : ¬ s.rx_bit_count < 8) :
    ((s.rx_head + 1) % 64 = s.rx_tail →
        (TIMER1_COMPB level s).rx_head = s.rx_head ∧
        (TIMER1_COMPB level s).rx_tail = s.rx_tail ∧
        (TIMER1_COMPB level s).rx_buffer = s.rx_buffer) ∧
      ((s.rx_head + 1) % 64 ≠ s.rx_tail →
        (TIMER1_COMPB level s).rx_head = (s.rx_head + 1) % 64 ∧
        (TIMER1_COMPB level s).rx_tail = s.rx_tail ∧
        (TIMER1_COMPB level s).rx_buffer = Function.update s.rx_buffer s.rx_head s.rx_byte) ∧
      (TIMER1_COMPB level s).rx_byte_count = (s.rx_byte_count + 1) % 4294967296 ∧
      (s.rx_byte_count < 4294967295 →
        (TIMER1_COMPB level s).rx_byte_count = s.rx_byte_count + 1) ∧
      (TIMER1_COMPB level s).TIMSK1_OCIE1B = false ∧
      (TIMER1_COMPB level s).EIMSK_INT0 = true := by
  rw [COMPB_complete level s hdone]
  refine ⟨fun hf => ?_, fun hf => ?_, rfl, fun hlt => ?_, rfl, rfl⟩
  · have hr : (s.rxRing.head + 1) % 64 = s.rxRing.tail := hf
    show (buffer_put s.rxRing s.rx_byte).head = s.rx_head ∧
      (buffer_put s.rxRing s.rx_byte).tail = s.rx_tail ∧
      (buffer_put s.rxRing s.rx_byte).buffer = s.rx_buffer
    rw [buffer_put_full _ _ hr]
    exact ⟨rfl, rfl, rfl⟩
  · have hr : (s.rxRing.head + 1) % 64 ≠ s.rxRing.tail := hf
    show (buffer_put s.rxRing s.rx_byte).head = (s.rx_head + 1) % 64 ∧
      (buffer_put s.rxRing s.rx_byte).tail = s.rx_tail ∧
      (buffer_put s.rxRing s.rx_byte).buffer = Function.update s.rx_buffer s.rx_head s.rx_byte
    rw [buffer_put_room _ _ hr]
    exact ⟨rfl, rfl, rfl⟩
  · show (s.rx_byte_count + 1) % 4294967296 = s.rx_byte_count + 1
    omega

/-- Witness for C12: a byte arriving at a full receive ring is dropped but counted. -/
theorem C12_rx_completion_counts_witness :
    ¬ ({ stateCountMax with rx_head := 62, rx_tail := 63, rx_byte_count := 7 } : State).rx_bit_count
        < 8 ∧
      (TIMER1_COMPB true { stateCountMax with rx_head := 62, rx_tail := 63, rx_byte_count := 7 }).rx_head
        = 62 ∧
      (TIMER1_COMPB true { stateCountMax with rx_head := 62, rx_tail := 63, rx_byte_count := 7 }).rx_byte_count
        = 8 :=
  have h := C12_rx_completion_counts true
    { stateCountMax with rx_head := 62, rx_tail := 63, rx_byte_count := 7 } (by decide)
  ⟨by decide, (h.1 (by decide)).1, h.2.2.2.1 (by decide)⟩

/-! ## Initialisation and the engine-state invariant -/

/-- C18: for every baud rate with `31 ≤ rate ≤ 2000000`, `uart_set_baudrate(rate)` returns
with `timer_ticks_per_bit = floor(2000000 / rate)`, a value between 1 and 65535, so the
store into the 16-bit variable truncates nothing; for `rate = 9600` the value is 208. -/
theorem C18_ticks_per_bit (CS11 : Nat) (rate : Int) (s : State)
    (hlo : 31 ≤ rate) (hhi : rate ≤ 2000000) :
    ∃ s', uart_set_baudrate CS11 rate s = some s' ∧
      (s'.timer_ticks_per_bit : Int) = 2000000 / rate ∧
      s'.timer_ticks_per_bit = 2000000 / rate.toNat ∧
      1 ≤ s'.timer_ticks_per_bit ∧ s'.timer_ticks_per_bit ≤ 65535 ∧
      (rate = 9600 → s'.timer_ticks_per_bit = 208) := by
  obtain ⟨r, rfl⟩ : ∃ r : Nat, rate = (r : Int) := ⟨rate.toNat, by omega⟩
  have hr1 : 31 ≤ r := by omega
  have hr2 : r ≤ 2000000 := by omega
  have hconv : (((r : Int) % 4294967296).toNat) = r := by omega
  have hpos : 0 < r := by omega
  have hge : 1 ≤ 2000000 / r := (Nat.le_div_iff_mul_le hpos).mpr (by omega)
  have hlt : 2000000 / r < 65536 := (Nat.div_lt_iff_lt_mul hpos).mpr (by omega)
  have hne : ¬ r = 0 := by omega
  refine ⟨_, by simp only [uart_set_baudrate, hconv, hne, if_false]; rfl, ?_, ?_, ?_, ?_, ?_⟩
  · show (((16000000 / 8 / r) % 65536 : Nat) : Int) = 2000000 / (r : Int)
    rw [Nat.mod_eq_of_lt (by exact hlt)]
    exact Int.ofNat_ediv 2000000 r
  · show (16000000 / 8 / r) % 65536 = 2000000 / (r : Int).toNat
    rw [Nat.mod_eq_of_lt (by exact hlt), Int.toNat_ofNat]
  · show 1 ≤ (16000000 / 8 / r) % 65536
    rw [Nat.mod_eq_of_lt (by exact hlt)]
    exact hge
  · show (16000000 / 8 / r) % 65536 ≤ 65535
    omega
  · intro h96
    have : r = 9600 := by omega
    subst this
    rfl

/-- Witness for C18: 9600 baud gives 208 ticks per bit. -/
theorem C18_ticks_per_bit_witness :
    (31 : Int) ≤ 9600 ∧ (9600 : Int) ≤ 2000000 ∧
      ∃ s', uart_set_baudrate 1 9600 {} = some s' ∧ s'.timer_ticks_per_bit = 208 := by
  obtain ⟨s', h1, _, _, _, _, h6⟩ := C18_ticks_per_bit 1 9600 {} (by decide) (by decide)
  exact ⟨by decide, by decide, s', h1, h6 rfl⟩

theorem step_inv (s : State) (e : Event)
    (h : s.tx_bit_count ≤ 9 ∧ s.rx_bit_count ≤ 8) :
    (step s e).tx_bit_count ≤ 9 ∧ (step s e).rx_bit_count ≤ 8 := by
  obtain ⟨htx, hrx⟩ := h
  cases e with
  | int0 t => exact ⟨htx, Nat.zero_le _⟩
  | compa =>
    show (TIMER1_COMPA s).tx_bit_count ≤ 9 ∧ (TIMER1_COMPA s).rx_bit_count ≤ 8
    by_cases hpos : 0 < s.tx_bit_count
    · rw [COMPA_shift s hpos]
      exact ⟨by show s.tx_bit_count - 1 ≤ 9; omega, hrx⟩
    · have h0 : s.tx_bit_count = 0 := by omega
      by_cases he : s.tx_head = s.tx_tail
      · rw [COMPA_idle s h0 he]; exact ⟨htx, hrx⟩
      · rw [COMPA_fetch s h0 he]; exact ⟨Nat.le_refl 9, hrx⟩
  | compb l =>
    show (TIMER1_COMPB l s).tx_bit_count ≤ 9 ∧ (TIMER1_COMPB l s).rx_bit_count ≤ 8
    by_cases hlt : s.rx_bit_count < 8
    · rw [COMPB_sample l s hlt]
      exact ⟨htx, by show s.rx_bit_count + 1 ≤ 8; omega⟩
    · rw [COMPB_complete l s hlt]; exact ⟨htx, hrx⟩
  | send t b =>
    show ((uart_send t b s).getD s).tx_bit_count ≤ 9 ∧ ((uart_send t b s).getD s).rx_bit_count ≤ 8
    by_cases hf : (s.tx_head + 1) % 64 = s.tx_tail
    · rw [uart_send_full t b s hf]; exact ⟨htx, hrx⟩
    · rw [uart_send_room t b s hf]; exact ⟨htx, hrx⟩
  | read => exact ⟨htx, hrx⟩

/-- C19: engine-state invariant.  In every state reached from the initial state (all
globals zero) by any sequence of `INT0`, `TIMER1_COMPA`, `TIMER1_COMPB` events and
`uart_send`, `uart_read` calls, `tx_bit_count ≤ 9` and `rx_bit_count ≤ 8`. -/
theorem C19_engine_invariant (events : List Event) :
    (events.foldl step {}).tx_bit_count ≤ 9 ∧ (events.foldl step {}).rx_bit_count ≤ 8 := by
  have key : ∀ (evs : List Event) (s : State),
      s.tx_bit_count ≤ 9 ∧ s.rx_bit_count ≤ 8 →
      (evs.foldl step s).tx_bit_count ≤ 9 ∧ (evs.foldl step s).rx_bit_count ≤ 8 := by
    intro evs
    induction evs with
    | nil => intro s h; exact h
    | cons e evs ih => intro s h; exact ih _ (step_inv s e h)
  exact key events {} ⟨by decide, by decide⟩

/-! ## Transmit engine: draining the queue -/

/-- The transmit engine, started between two frames with the bytes `bs` queued, stays
armed for `10 * bs.length` compare events; after them the queue is empty, every byte has
been counted, and only the transmit engine's own variables have changed. -/
theorem COMPA_run (bs : List Nat) :
    ∀ s : State, s.tx_bit_count = 0 → s.tx_head < 64 → s.tx_tail < 64 →
      s.txRing.contents = bs → s.TIMSK1_OCIE1A = true →
      (∀ j, j ≤ 10 * bs.length → (TIMER1_COMPA^[j] s).TIMSK1_OCIE1A = true) ∧
        (TIMER1_COMPA^[10 * bs.length] s).tx_bit_count = 0 ∧
        (TIMER1_COMPA^[10 * bs.length] s).tx_head = (TIMER1_COMPA^[10 * bs.length] s).tx_tail ∧
        (TIMER1_COMPA^[10 * bs.length] s).tx_byte_count % 4294967296
          = (s.tx_byte_count + bs.length) % 4294967296 ∧
        (s.tx_byte_count < 4294967296 →
          (TIMER1_COMPA^[10 * bs.length] s).tx_byte_count < 4294967296) ∧
        TIMER1_COMPA^[10 * bs.length] s =
          { s with OCR1A := (TIMER1_COMPA^[10 * bs.length] s).OCR1A
                   tx_tail := (TIMER1_COMPA^[10 * bs.length] s).tx_tail
                   tx_shift_register := (TIMER1_COMPA^[10 * bs.length] s).tx_shift_register
                   tx_bit_count := (TIMER1_COMPA^[10 * bs.length] s).tx_bit_count
                   PORTD_PD3 := (TIMER1_COMPA^[10 * bs.length] s).PORTD_PD3
                   tx_byte_count := (TIMER1_COMPA^[10 * bs.length] s).tx_byte_count } := by
  induction bs with
  | nil =>
    intro s h0 hh ht hc ha
    have he : s.tx_head = s.tx_tail := (Ring.contents_eq_nil_iff s.txRing hh ht).mp hc
    simp only [List.length_nil, Nat.mul_zero, Function.iterate_zero, id_eq]
    refine ⟨?_, h0, he, by simp, fun h => h, trivial⟩
    intro j hj
    have : j = 0 := by omega
    subst this
    exact ha
  | cons b bs ih =>
    intro s h0 hh ht hc ha
    have hne : s.tx_head ≠ s.tx_tail := by
      intro he
      have := (Ring.contents_eq_nil_iff s.txRing hh ht).mpr he
      rw [this] at hc
      exact List.noConfusion hc
    have hget := Ring.contents_get s.txRing hh ht hne
    rw [hc, buffer_get_nonempty _ hne] at hget
    have hbs : ({ s.txRing with tail := (s.tx_tail + 1) % 64 } : Ring).contents = bs :=
      ((List.cons.inj hget).2).symm
    have h10 := COMPA_frame_iter 9 s (by omega) h0 hne
    obtain ⟨i1, i2, i3, i4, i5, i6⟩ := ih (TIMER1_COMPA^[9 + 1] s)
      (by rw [h10]) (by rw [h10]; exact hh) (by rw [h10]; exact Nat.mod_lt _ (by decide))
      (by rw [h10]; exact hbs) (by rw [h10]; exact ha)
    have hsplit : ∀ j, TIMER1_COMPA^[j + 10] s = TIMER1_COMPA^[j] (TIMER1_COMPA^[9 + 1] s) := by
      intro j
      rw [Function.iterate_add_apply]
    have hlen : 10 * (b :: bs).length = 10 * bs.length + 10 := by
      simp only [List.length_cons]; omega
    rw [hlen, hsplit]
    have hcnt : (TIMER1_COMPA^[9 + 1] s).tx_byte_count = (s.tx_byte_count + 1) % 4294967296 := by
      rw [h10]
    refine ⟨?_, i2, i3, ?_, ?_, ?_⟩
    · intro j hj
      by_cases hj10 : j ≤ 10
      · cases j with
        | zero => exact ha
        | succ k =>
          rw [COMPA_frame_iter k s (by omega) h0 hne]
          exact ha
      · obtain ⟨j', rfl⟩ : ∃ j', j = j' + 10 := ⟨j - 10, by omega⟩
        rw [hsplit]
        exact i1 j' (by omega)
    · rw [i4, hcnt, List.length_cons]
      omega
    · intro _
      exact i5 (by rw [hcnt]; exact Nat.mod_lt _ (by decide))
    · generalize TIMER1_COMPA^[10 * bs.length] (TIMER1_COMPA^[9 + 1] s) = F at i6 ⊢
      conv_lhs => rw [i6]
      rw [h10]

/-- C14: start with the transmitter idle (`tx_bit_count = 0`, transmit ring empty, compare
interrupt disarmed) and `tx_byte_count = 0`.  After enqueuing `k` bytes, `1 ≤ k ≤ 63`, the
compare interrupt is armed and stays armed through the first `10 * k` `TIMER1_COMPA`
events (this needs no assumption on the arm bit before the first send); event `10 * k + 1` disarms it, and at that point `tx_byte_count = k`, the
transmit ring is empty, `tx_bit_count = 0` (no further byte was fetched) and the output
pin is high. -/
theorem C14_tx_drains (s0 : State) (l : List (Nat × Nat))
    (h0 : s0.tx_bit_count = 0) (hempty : s0.tx_head = s0.tx_tail) (ht : s0.tx_tail < 64)
    (hcount : s0.tx_byte_count = 0)
    (hk1 : 1 ≤ l.length) (hk63 : l.length ≤ 63) :
    ∃ s1, uart_send_all l s0 = some s1 ∧
      (∀ j, j ≤ 10 * l.length → (TIMER1_COMPA^[j] s1).TIMSK1_OCIE1A = true) ∧
      (TIMER1_COMPA^[10 * l.length + 1] s1).TIMSK1_OCIE1A = false ∧
      (TIMER1_COMPA^[10 * l.length + 1] s1).tx_byte_count = l.length ∧
      (TIMER1_COMPA^[10 * l.length + 1] s1).tx_head
        = (TIMER1_COMPA^[10 * l.length + 1] s1).tx_tail ∧
      (TIMER1_COMPA^[10 * l.length + 1] s1).tx_bit_count = 0 ∧
      (TIMER1_COMPA^[10 * l.length + 1] s1).PORTD_PD3 = true := by
  have hh : s0.tx_head < 64 := by omega
  have hnil : s0.txRing.contents = [] := (Ring.contents_eq_nil_iff s0.txRing hh ht).mpr hempty
  obtain ⟨s1, h1, h2, h3, h4, h5⟩ :=
    uart_send_all_room l s0 hh ht (by rw [hnil]; simp only [List.length_nil]; omega)
  rw [hnil, List.nil_append] at h2
  have hl : l ≠ [] := by
    intro h
    rw [h] at hk1
    exact absurd hk1 (by decide)
  have hb1 : s1.tx_bit_count = 0 := by rw [h5]; exact h0
  have ht1 : s1.tx_tail < 64 := by rw [h5]; exact ht
  have hc1 : s1.tx_byte_count = 0 := by rw [h5]; exact hcount
  obtain ⟨r1, r2, r3, r4, r5, _⟩ := COMPA_run (l.map Prod.snd) s1 hb1 h3 ht1 h2 (h4 hl)
  rw [List.length_map] at r1 r2 r3 r4 r5
  have hfin := COMPA_idle (TIMER1_COMPA^[10 * l.length] s1) r2 r3
  have hlast : TIMER1_COMPA^[10 * l.length + 1] s1
      = TIMER1_COMPA (TIMER1_COMPA^[10 * l.length] s1) := Function.iterate_succ_apply' _ _ _
  refine ⟨s1, h1, r1, ?_, ?_, ?_, ?_, ?_⟩
  · rw [hlast, hfin]
  · rw [hlast, hfin]
    show (TIMER1_COMPA^[10 * l.length] s1).tx_byte_count = l.length
    have hlt := r5 (by rw [hc1]; decide)
    rw [hc1] at r4
    omega
  · rw [hlast, hfin]; exact r3
  · rw [hlast, hfin]; exact r2
  · rw [hlast, hfin]

/-- Witness for C14: the single byte `0x41`; the 11th event disarms, the counter is 1. -/
theorem C14_tx_drains_witness :
    stateIdle.tx_bit_count = 0 ∧ stateIdle.tx_head = stateIdle.tx_tail ∧
      stateIdle.TIMSK1_OCIE1A = false ∧ stateIdle.tx_byte_count = 0 ∧
      ∃ s1, uart_send_all [(1000, 0x41)] stateIdle = some s1 ∧
        (TIMER1_COMPA^[10] s1).TIMSK1_OCIE1A = true ∧
        (TIMER1_COMPA^[11] s1).TIMSK1_OCIE1A = false ∧
        (TIMER1_COMPA^[11] s1).tx_byte_count = 1 := by
  obtain ⟨s1, h1, h2, h3, h4, _⟩ := C14_tx_drains stateIdle [(1000, 0x41)] rfl rfl
    (by decide) rfl (by decide) (by decide)
  exact ⟨rfl, rfl, rfl, rfl, s1, h1, h2 10 (by decide), h3, h4⟩

/-! ## Diagnostics: the reset command -/

theorem uart_send_string_eq_all (t : Nat) (msg : List Nat) :
    ∀ s : State, (∀ b ∈ msg, b ≠ 0) →
      uart_send_string t msg s = uart_send_all (msg.map (fun b => (t, b))) s := by
  induction msg with
  | nil => intro s _; rfl
  | cons b msg ih =>
    intro s hz
    have hb : b ≠ 0 := hz b (by simp)
    simp only [uart_send_string, hb, if_false, List.map_cons, uart_send_all]
    cases h : uart_send t b s with
    | none => rfl
    | some s1 => exact ih s1 (fun x hx => hz x (by simp [hx]))

theorem SentOnly.trans {a b c : State} {m1 m2 : List Nat}
    (h1 : SentOnly a b m1) (h2 : SentOnly b c m2) : SentOnly a c (m1 ++ m2) := by
  obtain ⟨a1, _, a3, a4, a5⟩ := h1
  obtain ⟨b1, b2, b3, b4, b5⟩ := h2
  refine ⟨by rw [b1, a1, List.append_assoc], b2, ?_, fun h => b4 (a4 h), ?_⟩
  · intro hne
    by_cases hm2 : m2 = []
    · subst hm2
      exact b4 (a3 (by simpa using hne))
    · exact b3 hm2
  · conv_lhs => rw [b5, a5]

theorem uart_send_all_SentOnly (l : List (Nat × Nat)) (s : State)
    (hh : s.tx_head < 64) (ht : s.tx_tail < 64)
    (hroom : s.txRing.contents.length + l.length ≤ 63) :
    ∃ s', uart_send_all l s = some s' ∧ SentOnly s s' (l.map Prod.snd) := by
  obtain ⟨s', h1, h2, h3, h4, h5⟩ := uart_send_all_room l s hh ht hroom
  refine ⟨s', h1, h2, h3, fun hne => h4 (fun hl => hne (by rw [hl]; rfl)), ?_, h5⟩
  intro ha
  by_cases hl : l = []
  · subst hl
    simp only [uart_send_all, Option.some.injEq] at h1
    rw [← h1]
    exact ha
  · exact h4 hl

theorem uart_send_string_SentOnly (t : Nat) (msg : List Nat) (s : State)
    (hz : ∀ b ∈ msg, b ≠ 0) (hh : s.tx_head < 64) (ht : s.tx_tail < 64)
    (hroom : s.txRing.contents.length + msg.length ≤ 63) :
    ∃ s', uart_send_string t msg s = some s' ∧ SentOnly s s' msg := by
  obtain ⟨s', h1, h2⟩ := uart_send_all_SentOnly (msg.map (fun b => (t, b))) s hh ht
    (by simpa using hroom)
  refine ⟨s', by rw [uart_send_string_eq_all t msg s hz]; exact h1, ?_⟩
  simpa [List.map_map, Function.comp_def] using h2

theorem uart_send_SentOnly (t b : Nat) (s : State)
    (hh : s.tx_head < 64) (ht : s.tx_tail < 64)
    (hroom : s.txRing.contents.length + 1 ≤ 63) :
    ∃ s', uart_send t b s = some s' ∧ SentOnly s s' [b] := by
  obtain ⟨s', h1, h2⟩ := uart_send_all_SentOnly [(t, b)] s hh ht (by simpa using hroom)
  refine ⟨s', ?_, h2⟩
  simp only [uart_send_all] at h1
  cases h : uart_send t b s with
  | none => rw [h] at h1; exact absurd h1 (by simp)
  | some s1 => rw [h] at h1; exact h1

theorem SentOnly.tail_eq {s s' : State} {m : List Nat} (h : SentOnly s s' m) :
    s'.tx_tail = s.tx_tail := by
  rw [h.2.2.2.2]

theorem SentOnly.length_eq {s s' : State} {m : List Nat} (h : SentOnly s s' m) :
    s'.txRing.contents.length = s.txRing.contents.length + m.length := by
  rw [h.1, List.length_append]

/-- The annotated echo of a received `'r'`: 17 bytes. -/
theorem loop_echo_r (t : Nat) (s : State) (hh : s.tx_head < 64) (ht : s.tx_tail < 64)
    (hroom : s.txRing.contents.length + 17 ≤ 63) :
    ∃ s', loop_echo t 'r'.toNat s = some s' ∧ SentOnly s s' (cstr "[RX: \x27r\x27 (0x72)] ") := by
  have n2 : (cstr "[RX: \x27").length = 6 := rfl
  have n4 : (cstr "\x27 (0x").length = 5 := rfl
  have n5 : (ultoa (sext16 'r'.toNat) 16).length = 2 := rfl
  have n6 : (cstr ")] ").length = 3 := rfl
  obtain ⟨s2, e2, f2⟩ := uart_send_string_SentOnly t (cstr "[RX: \x27") s (by decide)
    hh ht (by omega)
  have l2 := f2.length_eq
  obtain ⟨s3, e3, f3⟩ := uart_send_SentOnly t 'r'.toNat s2 f2.2.1 (by rw [f2.tail_eq]; exact ht)
    (by omega)
  have l3 := f3.length_eq
  simp only [List.length_singleton] at l3
  obtain ⟨s4, e4, f4⟩ := uart_send_string_SentOnly t (cstr "\x27 (0x") s3 (by decide) f3.2.1
    (by rw [f3.tail_eq, f2.tail_eq]; exact ht) (by omega)
  have l4 := f4.length_eq
  obtain ⟨s5, e5, f5⟩ := uart_send_string_SentOnly t (ultoa (sext16 'r'.toNat) 16) s4 (by decide)
    f4.2.1 (by rw [f4.tail_eq, f3.tail_eq, f2.tail_eq]; exact ht) (by omega)
  have l5 := f5.length_eq
  obtain ⟨s6, e6, f6⟩ := uart_send_string_SentOnly t (cstr ")] ") s5 (by decide)
    f5.2.1 (by rw [f5.tail_eq, f4.tail_eq, f3.tail_eq, f2.tail_eq]; exact ht) (by omega)
  have hhex : ¬ 3 < (ultoa (sext16 'r'.toNat) 16).length + 1 := by decide
  refine ⟨s6, ?_, (((f2.trans f3).trans f4).trans f5).trans f6⟩
  unfold loop_echo
  rw [e2, Option.some_bind, e3, Option.some_bind, e4, Option.some_bind]
  simp only [hhex, if_false]
  rw [e5, Option.some_bind, e6]

/-- The reset command: the three counters are zeroed, then the 17-byte reply is
enqueued. -/
theorem loop_command_r (t : Nat) (s : State) (hh : s.tx_head < 64) (ht : s.tx_tail < 64)
    (hroom : s.txRing.contents.length + 17 ≤ 63) :
    ∃ s', loop_command t 'r'.toNat s = some s' ∧
      SentOnly { s with tx_byte_count := 0, rx_byte_count := 0, rx_interrupt_count := 0 } s'
        (cstr "\nCounters reset!\n") := by
  have n : (cstr "\nCounters reset!\n").length = 17 := rfl
  obtain ⟨s8, e8, f8⟩ := uart_send_string_SentOnly t (cstr "\nCounters reset!\n")
    { s with tx_byte_count := 0, rx_byte_count := 0, rx_interrupt_count := 0 } (by decide)
    hh ht (by show s.txRing.contents.length + _ ≤ 63; omega)
  have c1 : ¬ 'r'.toNat = '?'.toNat := by decide
  have c2 : ¬ 'r'.toNat = 's'.toNat := by decide
  have c3 : ¬ 'r'.toNat = 't'.toNat := by decide
  refine ⟨s8, ?_, f8⟩
  unfold loop_command
  rw [if_neg c1, if_neg c2, if_neg c3, if_pos rfl]
  exact e8

/-- `loop()` on a received `'r'`, with no interrupt in between, no periodic report due
and room for 35 bytes in the transmit ring: it returns with the three counters zero and
the echo followed by the reply queued for transmission. -/
theorem loop_reset (t : Nat) (s : State)
    (hrh : s.rx_head < 64) (hrt : s.rx_tail < 64) (hne : s.rx_head ≠ s.rx_tail)
    (hr : s.rx_buffer s.rx_tail = 'r'.toNat)
    (hcnt : (s.loop_counter + 1) % 4294967296 % 10000 ≠ 0)
    (hh : s.tx_head < 64) (ht : s.tx_tail < 64)
    (hroom : s.txRing.contents.length + 35 ≤ 63) :
    ∃ s1, loop t s = some s1 ∧
      s1.tx_byte_count = 0 ∧ s1.rx_byte_count = 0 ∧ s1.rx_interrupt_count = 0 ∧
      s1.txRing.contents
        = s.txRing.contents ++ cstr "[RX: \x27r\x27 (0x72)] r\nCounters reset!\n" ∧
      s1.tx_head < 64 ∧ s1.tx_tail = s.tx_tail ∧ s1.tx_bit_count = s.tx_bit_count ∧
      s1.TIMSK1_OCIE1A = true ∧ s1.rx_head = s.rx_head ∧
      s1.rx_tail = (s.rx_tail + 1) % 64 := by
  -- the state after `loop_counter++` and the one after `uart_read()`
  obtain ⟨sa, hsa⟩ : ∃ sa : State, sa =
      { s with loop_counter := (s.loop_counter + 1) % 4294967296 } := ⟨_, rfl⟩
  obtain ⟨sb, hsb⟩ : ∃ sb : State, sb = { sa with rx_tail := (sa.rx_tail + 1) % 64 } :=
    ⟨_, rfl⟩
  have hbh : sb.tx_head < 64 := by rw [hsb, hsa]; exact hh
  have hbt : sb.tx_tail < 64 := by rw [hsb, hsa]; exact ht
  have hbc : sb.txRing.contents = s.txRing.contents := by rw [hsb, hsa]; rfl
  have n6 : (cstr "[RX: \x27r\x27 (0x72)] ").length = 17 := rfl
  have n8 : (cstr "\nCounters reset!\n").length = 17 := rfl
  obtain ⟨s6, e6, f6⟩ := loop_echo_r t sb hbh hbt (by rw [hbc]; omega)
  have l6 := f6.length_eq
  obtain ⟨s7, e7, f7⟩ := uart_send_SentOnly t 'r'.toNat s6 f6.2.1
    (by rw [f6.tail_eq]; exact hbt) (by rw [hbc] at l6; omega)
  have l7 := f7.length_eq
  simp only [List.length_singleton] at l7
  have fpre : SentOnly sb s7 (cstr "[RX: \x27r\x27 (0x72)] r") := f6.trans f7
  obtain ⟨s8, e8, f8⟩ := loop_command_r t s7 f7.2.1
    (by rw [f7.tail_eq, f6.tail_eq]; exact hbt) (by rw [hbc] at l6; omega)
  have hc8 : s8.txRing.contents
      = s.txRing.contents ++ cstr "[RX: \x27r\x27 (0x72)] r\nCounters reset!\n" := by
    rw [f8.1]
    show s7.txRing.contents ++ _ = _
    rw [fpre.1, hbc, List.append_assoc]
    rfl
  have h7 := fpre.2.2.2.2
  have h8 := f8.2.2.2.2
  refine ⟨s8, ?_, by rw [h8], by rw [h8], by rw [h8], hc8, f8.2.1, ?_, ?_,
    f8.2.2.1 (by decide), ?_, ?_⟩
  · -- the call unfolds to the chain above
    have hav : uart_available sa ≠ 0 := by
      intro h0
      apply hne
      have := (uart_available_eq_zero_iff sa (by rw [hsa]; exact hrh) (by rw [hsa]; exact hrt)).mp h0
      rw [hsa] at this
      exact this
    have hrne : sa.rxRing.head ≠ sa.rxRing.tail := by rw [hsa]; exact hne
    have hrd : uart_read sa = ('r'.toNat, sb) := by
      simp only [uart_read, buffer_get_nonempty _ hrne]
      rw [hsb, ← hr, hsa]
      rfl
    have hdbg : ¬ (DEBUG_MODE ≠ 0 ∧ sa.loop_counter % 10000 = 0) := by
      rw [hsa]
      exact fun h => hcnt h.2
    have hd : DEBUG_MODE ≠ 0 := by decide
    have hloop : loop t s =
        ((if DEBUG_MODE ≠ 0 ∧ sa.loop_counter % 10000 = 0 then
            (print_debug_stats t sa).bind fun x => some { x with last_debug_time := x.loop_counter }
          else some sa).bind fun x =>
          if uart_available x ≠ 0 then
            ((if DEBUG_MODE ≠ 0 then loop_echo t (uart_read x).1 (uart_read x).2
              else some (uart_read x).2).bind fun y =>
              (uart_send t (uart_read x).1 y).bind fun z => loop_command t (uart_read x).1 z)
          else some x) := by
      rw [hsa]
      rfl
    rw [hloop, if_neg hdbg, Option.some_bind, if_pos hav, hrd, if_pos hd]
    show (loop_echo t 'r'.toNat sb).bind _ = _
    rw [e6, Option.some_bind, e7, Option.some_bind, e8]
  · rw [h8]
    show s7.tx_tail = s.tx_tail
    rw [h7, hsb, hsa]
  · rw [h8]
    show s7.tx_bit_count = s.tx_bit_count
    rw [h7, hsb, hsa]
  · rw [h8]
    show s7.rx_head = s.rx_head
    rw [h7, hsb, hsa]
  · rw [h8]
    show s7.rx_tail = (s.rx_tail + 1) % 64
    rw [h7, hsb, hsa]

/-- The transmit engine draining a queue of `bs` bytes: armed for `10 * bs.length`
compare events, disarmed by the next one; the bytes are counted and nothing of the
receive side changes. -/
theorem COMPA_drain (bs : List Nat) (s : State) (h0 : s.tx_bit_count = 0)
    (hh : s.tx_head < 64) (ht : s.tx_tail < 64) (hc : s.txRing.contents = bs)
    (ha : s.TIMSK1_OCIE1A = true) :
    (∀ j, j ≤ 10 * bs.length → (TIMER1_COMPA^[j] s).TIMSK1_OCIE1A = true) ∧
      (TIMER1_COMPA^[10 * bs.length + 1] s).TIMSK1_OCIE1A = false ∧
      (TIMER1_COMPA^[10 * bs.length + 1] s).tx_head
        = (TIMER1_COMPA^[10 * bs.length + 1] s).tx_tail ∧
      (TIMER1_COMPA^[10 * bs.length + 1] s).tx_head = s.tx_head ∧
      (TIMER1_COMPA^[10 * bs.length + 1] s).tx_byte_count % 4294967296
        = (s.tx_byte_count + bs.length) % 4294967296 ∧
      (s.tx_byte_count < 4294967296 →
        (TIMER1_COMPA^[10 * bs.length + 1] s).tx_byte_count < 4294967296) ∧
      (TIMER1_COMPA^[10 * bs.length + 1] s).rx_byte_count = s.rx_byte_count ∧
      (TIMER1_COMPA^[10 * bs.length + 1] s).rx_interrupt_count = s.rx_interrupt_count ∧
      (TIMER1_COMPA^[10 * bs.length + 1] s).rxRing = s.rxRing := by
  obtain ⟨r1, r2, r3, r4, r5, r6⟩ := COMPA_run bs s h0 hh ht hc ha
  have hfin := COMPA_idle (TIMER1_COMPA^[10 * bs.length] s) r2 r3
  have hlast : TIMER1_COMPA^[10 * bs.length + 1] s
      = TIMER1_COMPA (TIMER1_COMPA^[10 * bs.length] s) := Function.iterate_succ_apply' _ _ _
  have hq : (TIMER1_COMPA^[10 * bs.length] s).tx_head = s.tx_head := by rw [r6]
  have hq1 : (TIMER1_COMPA^[10 * bs.length] s).rx_byte_count = s.rx_byte_count := by rw [r6]
  have hq2 : (TIMER1_COMPA^[10 * bs.length] s).rx_interrupt_count = s.rx_interrupt_count := by
    rw [r6]
  have hq3 : (TIMER1_COMPA^[10 * bs.length] s).rxRing = s.rxRing := by rw [r6]; rfl
  rw [hlast, hfin]
  exact ⟨r1, rfl, r3, hq, r4, r5, hq1, hq2, hq3⟩

/-- The reset command followed by the transmission of everything it enqueued: from an
idle transmitter, `loop()` returns with the three counters zero and 35 bytes queued;
351 `TIMER1_COMPA` events later the transmitter has gone idle again, `tx_byte_count` is
35 and the two receive counters are still zero. -/
theorem reset_then_drain (t : Nat) (s : State)
    (hrh : s.rx_head < 64) (hrt : s.rx_tail < 64) (hne : s.rx_head ≠ s.rx_tail)
    (hr : s.rx_buffer s.rx_tail = 'r'.toNat)
    (hcnt : (s.loop_counter + 1) % 4294967296 % 10000 ≠ 0)
    (h0 : s.tx_bit_count = 0) (hempty : s.tx_head = s.tx_tail) (ht : s.tx_tail < 64) :
    ∃ s1 sf, loop t s = some s1 ∧ TIMER1_COMPA^[351] s1 = sf ∧
      (s1.tx_byte_count = 0 ∧ s1.rx_byte_count = 0 ∧ s1.rx_interrupt_count = 0) ∧
      s1.txRing.contents = cstr "[RX: \x27r\x27 (0x72)] r\nCounters reset!\n" ∧
      (∀ j, j ≤ 350 → (TIMER1_COMPA^[j] s1).TIMSK1_OCIE1A = true) ∧
      sf.TIMSK1_OCIE1A = false ∧ sf.tx_head = sf.tx_tail ∧ sf.tx_head < 64 ∧
      sf.tx_byte_count = 35 ∧ sf.rx_byte_count = 0 ∧ sf.rx_interrupt_count = 0 ∧
      sf.rx_head = s.rx_head ∧ sf.rx_tail = (s.rx_tail + 1) % 64 := by
  have hh : s.tx_head < 64 := by omega
  have hnil : s.txRing.contents = [] := (Ring.contents_eq_nil_iff s.txRing hh ht).mpr hempty
  obtain ⟨s1, h1, c1, c2, c3, hc, hh1, ht1, hb1, ha1, hrh1, hrt1⟩ :=
    loop_reset t s hrh hrt hne hr hcnt hh ht (by rw [hnil]; decide)
  rw [hnil, List.nil_append] at hc
  obtain ⟨r1, r2, r3, r4, r5, r6, r7, r8, r9⟩ :=
    COMPA_drain _ s1 (by rw [hb1]; exact h0) hh1 (by rw [ht1]; exact ht) hc ha1
  have e350 : 10 * (cstr "[RX: \x27r\x27 (0x72)] r\nCounters reset!\n").length = 350 := rfl
  have e351 : 10 * (cstr "[RX: \x27r\x27 (0x72)] r\nCounters reset!\n").length + 1 = 351 :=
    rfl
  have e35 : (cstr "[RX: \x27r\x27 (0x72)] r\nCounters reset!\n").length = 35 := rfl
  rw [e350] at r1
  rw [e351] at r2 r3 r4 r5 r6 r7 r8 r9
  rw [e35, c1] at r5
  obtain ⟨sf, hsf⟩ : ∃ sf, TIMER1_COMPA^[351] s1 = sf := ⟨_, rfl⟩
  rw [hsf] at r2 r3 r4 r5 r6 r7 r8 r9
  have hlt := r6 (by rw [c1]; decide)
  have hrh2 : sf.rx_head = s1.rx_head := congrArg Ring.head r9
  have hrt2 : sf.rx_tail = s1.rx_tail := congrArg Ring.tail r9
  exact ⟨s1, sf, h1, hsf, ⟨c1, c2, c3⟩, hc, r1, r2, r3, by rw [r4]; exact hh1, by omega,
    by rw [r7, c2], by rw [r8, c3], by rw [hrh2, hrh1], by rw [hrt2, hrt1]⟩

theorem uart_available_lt (s : State) : uart_available s < 256 := by
  unfold uart_available uart_rx_available
  have h1 := Int.emod_lt_of_pos
    (Int.tmod ((s.rx_head : Int) - (s.rx_tail : Int)) (UART_BUFFER_SIZE : Int))
    (by decide : (0 : Int) < 256)
  have h2 := Int.emod_nonneg
    (Int.tmod ((s.rx_head : Int) - (s.rx_tail : Int)) (UART_BUFFER_SIZE : Int))
    (by decide : (256 : Int) ≠ 0)
  omega

set_option maxRecDepth 1000000 in
/-- The decimal digits of a value below 256: at most three, none of them a zero byte. -/
theorem ultoa_small : ∀ n, n < 256 → (∀ b ∈ ultoa n 10, b ≠ 0) ∧ (ultoa n 10).length ≤ 3 := by
  decide

/-- `print_debug_stats()` called with an empty transmit ring and the counters at 35, 0
and 0 returns with its report queued for transmission. -/
theorem print_debug_stats_report (t : Nat) (s : State) (hh : s.tx_head < 64)
    (ht : s.tx_tail < 64) (hempty : s.tx_head = s.tx_tail)
    (h1 : s.tx_byte_count = 35) (h2 : s.rx_byte_count = 0) (h3 : s.rx_interrupt_count = 0) :
    ∃ s', print_debug_stats t s = some s' ∧
      s'.txRing.contents =
        cstr "TX bytes: 35\nRX bytes: 0\nRX interrupts: 0\nBuffer available: "
          ++ ultoa (uart_available s) 10 := by
  have hnil : s.txRing.contents = [] := (Ring.contents_eq_nil_iff s.txRing hh ht).mpr hempty
  have hl0 : s.txRing.contents.length = 0 := by rw [hnil]; rfl
  have na : (cstr "TX bytes: ").length = 10 := rfl
  have nb : (ultoa 35 10).length = 2 := rfl
  have nc : (cstr "\nRX bytes: ").length = 11 := rfl
  have nd : (ultoa 0 10).length = 1 := rfl
  have ne : (cstr "\nRX interrupts: ").length = 16 := rfl
  have ng : (cstr "\nBuffer available: ").length = 19 := rfl
  obtain ⟨s1, e1, f1⟩ := uart_send_string_SentOnly t (cstr "TX bytes: ") s (by decide)
    hh ht (by omega)
  have l1 := f1.length_eq
  have x1 : s1.tx_byte_count = 35 := by rw [f1.2.2.2.2]; exact h1
  obtain ⟨s2, e2, f2⟩ := uart_send_string_SentOnly t (ultoa 35 10) s1 (by decide)
    f1.2.1 (by rw [f1.tail_eq]; exact ht) (by omega)
  have l2 := f2.length_eq
  have g2 := f1.trans f2
  obtain ⟨s3, e3, f3⟩ := uart_send_string_SentOnly t (cstr "\nRX bytes: ") s2 (by decide)
    f2.2.1 (by rw [g2.tail_eq]; exact ht) (by omega)
  have l3 := f3.length_eq
  have g3 := g2.trans f3
  have x3 : s3.rx_byte_count = 0 := by rw [g3.2.2.2.2]; exact h2
  obtain ⟨s4, e4, f4⟩ := uart_send_string_SentOnly t (ultoa 0 10) s3 (by decide)
    f3.2.1 (by rw [g3.tail_eq]; exact ht) (by omega)
  have l4 := f4.length_eq
  have g4 := g3.trans f4
  obtain ⟨s5, e5, f5⟩ := uart_send_string_SentOnly t (cstr "\nRX interrupts: ") s4 (by decide)
    f4.2.1 (by rw [g4.tail_eq]; exact ht) (by omega)
  have l5 := f5.length_eq
  have g5 := g4.trans f5
  have x5 : s5.rx_interrupt_count = 0 := by rw [g5.2.2.2.2]; exact h3
  obtain ⟨s6, e6, f6⟩ := uart_send_string_SentOnly t (ultoa 0 10) s5 (by decide)
    f5.2.1 (by rw [g5.tail_eq]; exact ht) (by omega)
  have l6 := f6.length_eq
  have g6 := g5.trans f6
  obtain ⟨s7, e7, f7⟩ := uart_send_string_SentOnly t (cstr "\nBuffer available: ") s6
    (by decide) f6.2.1 (by rw [g6.tail_eq]; exact ht) (by omega)
  have l7 := f7.length_eq
  have g7 := g6.trans f7
  have x7 : uart_available s7 = uart_available s := by rw [g7.2.2.2.2]; rfl
  obtain ⟨hz8, n8⟩ := ultoa_small (uart_available s) (uart_available_lt s)
  obtain ⟨s8, e8, f8⟩ := uart_send_string_SentOnly t (ultoa (uart_available s) 10) s7 hz8
    f7.2.1 (by rw [g7.tail_eq]; exact ht) (by omega)
  have g8 := g7.trans f8
  refine ⟨s8, ?_, ?_⟩
  · unfold print_debug_stats uart_send_number
    rw [e1, Option.some_bind, x1, e2, Option.some_bind, e3, Option.some_bind, x3, e4,
      Option.some_bind, e5, Option.some_bind, x5, e6, Option.some_bind, e7, Option.some_bind,
      x7, e8]
  · rw [g8.1, hnil]
    simp only [List.append_assoc, List.nil_append]
    rfl

/-- C11 (counterexample): `stateCmdR` has received `'r'` after some traffic.  `loop()`
zeroes the counters and enqueues its echo and the reply; once the transmit engine has
sent that text the transmitter is idle again and `tx_byte_count` is 35, not 0, and
`print_debug_stats()` reports `TX bytes: 35`. -/
theorem C11_tx_count_after_reply :
    loop 0 stateCmdR = some stateAfterReset ∧
      stateAfterReset.txRing.contents = cstr "[RX: \x27r\x27 (0x72)] r\nCounters reset!\n" ∧
      stateReplySent.TIMSK1_OCIE1A = false ∧
      stateReplySent.tx_head = stateReplySent.tx_tail ∧
      stateReplySent.tx_byte_count = 35 ∧ stateReplySent.tx_byte_count ≠ 0 ∧
      print_debug_stats 0 stateReplySent = some stateReported ∧
      stateReported.txRing.contents =
        cstr "TX bytes: 35\nRX bytes: 0\nRX interrupts: 0\nBuffer available: 0" := by
  obtain ⟨s1, sf, h1, hsf, _, hc, _, r2, r3, r4, r5, r6, r7, r8, r9⟩ :=
    reset_then_drain 0 stateCmdR (by decide) (by decide) (by decide) rfl (by decide) rfl rfl
      (by decide)
  have hA : stateAfterReset = s1 := by
    unfold stateAfterReset
    rw [h1]
    rfl
  have hB : stateReplySent = sf := by
    unfold stateReplySent
    rw [hA, hsf]
  obtain ⟨sp, hp, hpc⟩ := print_debug_stats_report 0 sf r4 (by rw [← r3]; exact r4) r3 r5 r6 r7
  have hC : stateReported = sp := by
    unfold stateReported
    rw [hB, hp]
    rfl
  have hav : uart_available sf = 0 :=
    (uart_available_eq_zero_iff sf (by rw [r8]; decide) (by rw [r9]; decide)).mpr
      (by rw [r8, r9]; decide)
  rw [hC, hB, hA]
  refine ⟨h1, hc, r2, r3, r5, by rw [r5]; decide, hp, ?_⟩
  rw [hpc, hav]
  rfl

/-- C11 (amended): let `loop()` handle a received `'r'` with the transmitter idle and the
transmit ring empty, no periodic report due and no interrupt during the call.  When it
returns, `tx_byte_count`, `rx_byte_count` and `rx_interrupt_count` are all 0, whatever
they were before, and its 35 bytes of echo and reply are queued.  The transmit engine
stays armed for 350 `TIMER1_COMPA` events and the 351st disarms it; then
`rx_byte_count` and `rx_interrupt_count` are still 0 but `tx_byte_count` is 35, and a
`print_debug_stats()` issued at that point returns with the report
`TX bytes: 35`, `RX bytes: 0`, `RX interrupts: 0` queued. -/
theorem C11_reset_then_report (t t' : Nat) (s : State)
    (hrh : s.rx_head < 64) (hrt : s.rx_tail < 64) (hne : s.rx_head ≠ s.rx_tail)
    (hr : s.rx_buffer s.rx_tail = 'r'.toNat)
    (hcnt : (s.loop_counter + 1) % 4294967296 % 10000 ≠ 0)
    (h0 : s.tx_bit_count = 0) (hempty : s.tx_head = s.tx_tail) (ht : s.tx_tail < 64) :
    ∃ s1 sf sp, loop t s = some s1 ∧
      (s1.tx_byte_count = 0 ∧ s1.rx_byte_count = 0 ∧ s1.rx_interrupt_count = 0) ∧
      s1.txRing.contents = cstr "[RX: \x27r\x27 (0x72)] r\nCounters reset!\n" ∧
      (∀ j, j ≤ 350 → (TIMER1_COMPA^[j] s1).TIMSK1_OCIE1A = true) ∧
      TIMER1_COMPA^[351] s1 = sf ∧ sf.TIMSK1_OCIE1A = false ∧
      sf.tx_byte_count = 35 ∧ sf.rx_byte_count = 0 ∧ sf.rx_interrupt_count = 0 ∧
      print_debug_stats t' sf = some sp ∧
      sp.txRing.contents =
        cstr "TX bytes: 35\nRX bytes: 0\nRX interrupts: 0\nBuffer available: "
          ++ ultoa (uart_available sf) 10 := by
  obtain ⟨s1, sf, h1, hsf, hz, hc, r1, r2, r3, r4, r5, r6, r7, _, _⟩ :=
    reset_then_drain t s hrh hrt hne hr hcnt h0 hempty ht
  obtain ⟨sp, hp, hpc⟩ := print_debug_stats_report t' sf r4 (by rw [← r3]; exact r4) r3 r5 r6 r7
  exact ⟨s1, sf, sp, h1, hz, hc, r1, hsf, r2, r5, r6, r7, hp, hpc⟩

/-- Witness for C11: the state `stateCmdR`, counters 5, 1, 1 before the command. -/
theorem C11_reset_then_report_witness :
    stateCmdR.rx_head ≠ stateCmdR.rx_tail ∧ stateCmdR.rx_buffer stateCmdR.rx_tail = 'r'.toNat ∧
      stateCmdR.tx_byte_count = 5 ∧
      ∃ s1 sf, loop 0 stateCmdR = some s1 ∧ s1.tx_byte_count = 0 ∧
        TIMER1_COMPA^[351] s1 = sf ∧ sf.tx_byte_count = 35 ∧ sf.rx_byte_count = 0 := by
  obtain ⟨s1, sf, _, h1, hz, _, _, hsf, _, r5, r6, _⟩ :=
    C11_reset_then_report 0 0 stateCmdR (by decide) (by decide) (by decide) rfl (by decide)
      rfl rfl (by decide)
  exact ⟨by decide, rfl, rfl, s1, sf, h1, hz.1, hsf, r5, r6⟩

end MyUart

namespace Morse

set_option maxRecDepth 100000 in
theorem decode_letters :
    ∀ n, n < 26 → decode (letters.getD n "") = Char.ofNat ('A'.toNat + n) := by
  decide

set_option maxRecDepth 100000 in
theorem decode_numbers :
    ∀ n, n < 10 → decode (numbers.getD n "") = Char.ofNat ('0'.toNat + n) := by
  decide

set_option maxRecDepth 100000 in
theorem codes_nodup : (letters ++ numbers).Nodup ∧ (letters ++ numbers).length = 36 := by
  decide

set_option maxRecDepth 100000 in
theorem codes_decoded : ∀ code ∈ letters ++ numbers, decode code ≠ '?' := by
  decide

/-- C20: Morse table round trip.  For every upper-case letter `c` in `'A'..'Z'`,
`decode(letters[c - 'A']) = c`, and for every digit `c` in `'0'..'9'`,
`decode(numbers[c - '0']) = c`; the 36 code strings of the two tables are pairwise
distinct and none of them decodes to `'?'`. -/
theorem C20_morse_round_trip :
    (∀ c : Char, 'A'.toNat ≤ c.toNat → c.toNat ≤ 'Z'.toNat → decode (letterCode c) = c) ∧
      (∀ c : Char, '0'.toNat ≤ c.toNat → c.toNat ≤ '9'.toNat → decode (digitCode c) = c) ∧
      (letters ++ numbers).Nodup ∧ (letters ++ numbers).length = 36 ∧
      ∀ code ∈ letters ++ numbers, decode code ≠ '?' := by
  refine ⟨?_, ?_, codes_nodup.1, codes_nodup.2, codes_decoded⟩
  · intro c hlo hhi
    have hA : 'A'.toNat = 65 := rfl
    have hZ : 'Z'.toNat = 90 := rfl
    rw [hA] at hlo
    rw [hZ] at hhi
    have h := decode_letters (c.toNat - 65) (by omega)
    have e : 'A'.toNat + (c.toNat - 65) = c.toNat := by rw [hA]; omega
    rw [e, Char.ofNat_toNat] at h
    exact h
  · intro c hlo hhi
    have h0 : '0'.toNat = 48 := rfl
    have h9 : '9'.toNat = 57 := rfl
    rw [h0] at hlo
    rw [h9] at hhi
    have h := decode_numbers (c.toNat - 48) (by omega)
    have e : '0'.toNat + (c.toNat - 48) = c.toNat := by rw [h0]; omega
    rw [e, Char.ofNat_toNat] at h
    exact h

/-- Witness for C20: the letter `Q` and the digit `7`. -/
theorem C20_morse_round_trip_witness :
    'A'.toNat ≤ 'Q'.toNat ∧ 'Q'.toNat ≤ 'Z'.toNat ∧ decode (letterCode 'Q') = 'Q' ∧
      decode (digitCode '7') = '7' :=
  ⟨by decide, by decide, C20_morse_round_trip.1 'Q' (by decide) (by decide),
    C20_morse_round_trip.2.1 '7' (by decide) (by decide)⟩

end Morse
